import Mathlib

/-!
Shallow embedding of the appointment-sequence scheduling core of
`prognose.py` and `prognose_improved.py` (IPP Ambulanzverwaltungstool).

Modelling conventions:
* A calendar date is a day number (days since 1970-01-01, a `Nat`);
  `mkDate`/`civilFromDays` implement the standard proleptic-Gregorian
  conversion, so `weekday` (Monday = 0, as in Python) and calendar
  quarters (`quartalOf`, as in pandas `to_period("Q")`) are genuine.
* A DataFrame row is a `Termin`; the whole session-state DataFrame
  (`st.session_state.sitzungen`) is a `Store := List Termin` in row
  order.  Supervision rows have `klient = none` and `nummer = none`.
* pandas operations are translated positionally: boolean-mask filtering
  is `List.filter`, `df.iloc[:idx]` is `List.take idx`, assigning a list
  to the `Datum` column is `set_daten`, `sort_values("Datum")` is the
  stable `sortByDatum`.
-/

structure Termin where
  datum : Nat
  klient : Option String
  sitzungsart : String
  nummer : Option Nat
deriving DecidableEq, Repr

abbrev Store := List Termin

def SITZUNGS_DAUER_TAGE : Nat := 7

def SITZUNGEN_TYPEN : String → Option Nat := fun s =>
  if s = "Sprechstunde" then some 3
  else if s = "Probatorik" then some 4
  else if s = "Anamnese" then some 1
  else if s = "KZT" then some 24
  else if s = "LZT" then some 60
  else if s = "RFP" then some 20
  else none

/-- Days-since-epoch to (year, month, day), proleptic Gregorian. -/
def civilFromDays (z0 : Nat) : Nat × Nat × Nat :=
  let z := z0 + 719468
  let era := z / 146097
  let doe := z % 146097
  let yoe := (doe - doe / 1460 + doe / 36524 - doe / 146096) / 365
  let y := yoe + era * 400
  let doy := doe - (365 * yoe + yoe / 4 - yoe / 100)
  let mp := (5 * doy + 2) / 153
  let d := doy - (153 * mp + 2) / 5 + 1
  let m := if mp < 10 then mp + 3 else mp - 9
  (if m ≤ 2 then y + 1 else y, m, d)

/-- (year, month, day) to days since 1970-01-01, proleptic Gregorian. -/
def mkDate (y m d : Nat) : Nat :=
  let y2 := if m ≤ 2 then y - 1 else y
  let era := y2 / 400
  let yoe := y2 % 400
  let mp := if 2 < m then m - 3 else m + 9
  let doy := (153 * mp + 2) / 5 + d - 1
  let doe := yoe * 365 + yoe / 4 - yoe / 100 + doy
  era * 146097 + doe - 719468

/-- Python `date.weekday()`: Monday = 0.  1970-01-01 was a Thursday. -/
def weekday (d : Nat) : Nat := (d + 3) % 7

/-- pandas `to_period("Q")`: the (year, quarter) pair of a date. -/
def quartalOf (d : Nat) : Nat × Nat :=
  let c := civilFromDays d
  (c.1, (c.2.1 - 1) / 3 + 1)

/-- `generiere_folgesitzungen` (identical in both source files): one
appointment per `i` in `start_nr..end_nr`, dated
`last_date + (i - start_nr + 1) * SITZUNGS_DAUER_TAGE`. -/
def generiere_folgesitzungen (klientName : String) (lastDate : Nat)
    (sitzungsArt : String) (startNr endNr : Nat) : List Termin :=
  (List.range' startNr (endNr + 1 - startNr)).map fun i =>
    { datum := lastDate + (i - startNr + 1) * SITZUNGS_DAUER_TAGE
      klient := some klientName
      sitzungsart := sitzungsArt
      nummer := some i }

/-- `hole_klienten_termine`: all rows of one client, in store order. -/
def hole_klienten_termine (s : Store) (klient : String) : List Termin :=
  s.filter fun t => t.klient == some klient

/-- `update_klient_termine_in_session` (prognose.py): drop the client's
rows, then append the new chain. -/
def update_klient_termine_in_session (s : Store) (klient : String)
    (klientenTermine : List Termin) : Store :=
  (s.filter fun t => !(t.klient == some klient)) ++ klientenTermine

/-- `get_index`: position of the first row whose date matches. -/
def get_index (termine : List Termin) (d : Nat) : Option Nat :=
  termine.findIdx? fun t => t.datum == d

/-- `df["Datum"].max()` over a client's rows. -/
def max_datum (termine : List Termin) : Nat :=
  (termine.map Termin.datum).foldl max 0

/-- Assigning a list to the `Datum` column of a DataFrame. -/
def set_daten (termine : List Termin) (daten : List Nat) : List Termin :=
  (termine.zip daten).map fun p => { p.1 with datum := p.2 }

/-- `count_value_in_quarter(df, date, "Sitzungsart", wert)`. -/
def count_value_in_quarter (df : List Termin) (d : Nat) (wert : String) : Nat :=
  ((df.filter fun t => quartalOf t.datum == quartalOf d).filter
    fun t => t.sitzungsart == wert).length

/-- Chain part of `verschiebe_termin_callback` (prognose.py):
append `max + 7` to the date column, delete the date at the matched
position, reassign the column. -/
def verschiebe_termin_chain (termine : List Termin) (d : Nat) : List Termin :=
  match get_index termine d with
  | none => termine
  | some idx =>
      set_daten termine
        (((termine.map Termin.datum) ++ [max_datum termine + 7]).eraseIdx idx)

/-- `verschiebe_termin_callback` (prognose.py), store level: on a miss it
only logs and returns without touching the session state. -/
def verschiebe_termin_callback (s : Store) (d : Nat) (client : String) : Store :=
  let klientenTermine := hole_klienten_termine s client
  match get_index klientenTermine d with
  | none => s
  | some _ =>
      update_klient_termine_in_session s client
        (verschiebe_termin_chain klientenTermine d)

/-- Chain part of `markiere_ptg` (prognose.py): insert a PTG row before
the matched position, append `max + 7` to the date column, reassign. -/
def markiere_ptg_chain (termine : List Termin) (d : Nat) (client : String) :
    List Termin :=
  let nPtg := count_value_in_quarter termine d "PTG" + 1
  match get_index termine d with
  | none => termine
  | some idx =>
      let neueDaten := (termine.map Termin.datum) ++ [max_datum termine + 7]
      let newRow : Termin :=
        { datum := 0, klient := some client, sitzungsart := "PTG"
          nummer := some nPtg }
      set_daten (termine.take idx ++ [newRow] ++ termine.drop idx) neueDaten

/-- `markiere_ptg` (prognose.py), store level. -/
def markiere_ptg (s : Store) (d : Nat) (client : String) : Store :=
  let klientenTermine := hole_klienten_termine s client
  match get_index klientenTermine d with
  | none => s
  | some _ =>
      update_klient_termine_in_session s client
        (markiere_ptg_chain klientenTermine d client)

/-- Chain part of `loesche_termine` (prognose.py): truncate at the
matched position (`df[:idx]`). -/
def loesche_termine_chain (termine : List Termin) (d : Nat) : List Termin :=
  match get_index termine d with
  | none => termine
  | some idx => termine.take idx

/-- `loesche_termine` (prognose.py), store level. -/
def loesche_termine (s : Store) (d : Nat) (client : String) : Store :=
  let klientenTermine := hole_klienten_termine s client
  match get_index klientenTermine d with
  | none => s
  | some idx =>
      update_klient_termine_in_session s client (klientenTermine.take idx)

/-- Chain part of `verschiebe_alle` (prognose.py): every row at position
`≥ idx` gets `diff_days` added to its date. -/
def verschiebe_alle_chain (termine : List Termin) (d : Nat) (diffDays : Int) :
    List Termin :=
  match get_index termine d with
  | none => termine
  | some idx =>
      termine.enum.map fun p =>
        if idx ≤ p.1 then { p.2 with datum := ((p.2.datum : Int) + diffDays).toNat }
        else p.2

/-- `verschiebe_alle` (prognose.py), store level. -/
def verschiebe_alle (s : Store) (d : Nat) (client : String) (diffDays : Int) :
    Store :=
  let klientenTermine := hole_klienten_termine s client
  match get_index klientenTermine d with
  | none => s
  | some _ =>
      update_klient_termine_in_session s client
        (verschiebe_alle_chain klientenTermine d diffDays)

/-- The "Verschieben" action handler (prognose.py UI):
`diff_tage = new_day - pd.to_datetime(start).weekday()` - the signed
difference, not reduced mod 7. -/
def diff_tage (newDay : Nat) (startDatum : Nat) : Int :=
  (newDay : Int) - (weekday startDatum : Int)

/-- The full "Ab hier verschieben" action of prognose.py: UI-computed
signed weekday difference fed into `verschiebe_alle`. -/
def verschieben_action (s : Store) (d : Nat) (client : String) (newDay : Nat) :
    Store :=
  verschiebe_alle s d client (diff_tage newDay d)

/-- One iteration of the `loesche_urlaub` loop:
`verschiebe_termin_callback(row["Datum"], row["Klient"])`.  A row
without a client finds no matching chain and leaves the store as is. -/
def verschiebe_schritt (s : Store) (row : Termin) : Store :=
  match row.klient with
  | some k => verschiebe_termin_callback s row.datum k
  | none => s

/-- `loesche_urlaub` (prognose.py): snapshot all non-Supervision rows of
the targeted client(s) inside the inclusive window, then cancel-and-shift
each one in snapshot order; every step re-reads the live store. -/
def loesche_urlaub (s : Store) (start ende : Nat) (klient : String) : Store :=
  let termine := s.filter fun t => !(t.sitzungsart == "Supervision")
  let termine :=
    if klient = "Alle" then termine
    else termine.filter fun t => t.klient == some klient
  let urlaubTermine := termine.filter fun t => start ≤ t.datum && t.datum ≤ ende
  urlaubTermine.foldl verschiebe_schritt s

/-- `Nummer < n` on a nullable pandas Int64 column: `NA` compares false. -/
def num_lt (t : Termin) (n : Nat) : Bool :=
  match t.nummer with
  | some k => decide (k < n)
  | none => false

/-- `Nummer >= n` on a nullable pandas Int64 column: `NA` compares false. -/
def num_ge (t : Termin) (n : Nat) : Bool :=
  match t.nummer with
  | some k => decide (n ≤ k)
  | none => false

/-- `convert_kzt_to_lzt_callback` (prognose.py).  Note the last line of
the source: the WHOLE session store is assigned
`pd.concat([klient_termine_bereinigt, neue_sitzungen])`, i.e. only the
selected client's cleaned chain plus the new LZT run survive. -/
def convert_kzt_to_lzt_callback (s : Store) (client : String)
    (startKztNr : Nat) : Store :=
  let klientTermine := hole_klienten_termine s client
  let kztSitzungenBehalten := klientTermine.filter
    fun t => t.sitzungsart == "KZT" && num_lt t startKztNr
  let lastDate :=
    if kztSitzungenBehalten.isEmpty then max_datum klientTermine
    else max_datum kztSitzungenBehalten
  let neueSitzungen :=
    generiere_folgesitzungen client lastDate "LZT" startKztNr
      ((SITZUNGEN_TYPEN "LZT").getD 0)
  let klientTermineBereinigt := klientTermine.filter
    fun t => !(t.sitzungsart == "KZT" && num_ge t startKztNr)
  klientTermineBereinigt ++ neueSitzungen

/-- Stable insertion step for `sortByDatum`. -/
def insertByDatum (t : Termin) : List Termin → List Termin
  | [] => [t]
  | u :: us => if u.datum ≤ t.datum then u :: insertByDatum t us else t :: u :: us

/-- `sort_values("Datum")`, modelled as a stable sort on the date. -/
def sortByDatum : List Termin → List Termin
  | [] => []
  | t :: ts => insertByDatum t (sortByDatum ts)

/-- `loesche_termine_ab_datum` (prognose_improved.py): keep exactly the
rows dated strictly before `ab_datum`. -/
def loesche_termine_ab_datum (s : Store) (klient : String) (abDatum : Nat) :
    List Termin :=
  (hole_klienten_termine s klient).filter fun t => t.datum < abDatum

/-- `verschiebe_termine_ab_datum` (prognose_improved.py): rows dated
`≥ ab_datum` each move forward by `(neuer_wochentag - own weekday) % 7`
days (with a dead special case for a zero difference), earlier rows stay. -/
def verschiebe_termine_ab_datum (s : Store) (klient : String) (abDatum : Nat)
    (neuerWochentag : Nat) : List Termin :=
  let klientenTermine := hole_klienten_termine s klient
  let zuVerschieben := klientenTermine.filter fun t => abDatum ≤ t.datum
  if zuVerschieben.isEmpty then klientenTermine
  else
    let verschoben := zuVerschieben.map fun t =>
      let alterWochentag := weekday t.datum
      let tageDifferenz := (neuerWochentag + 7 - alterWochentag) % 7
      let tageDifferenz :=
        if tageDifferenz = 0 ∧ neuerWochentag ≠ alterWochentag then 7
        else tageDifferenz
      { t with datum := t.datum + tageDifferenz }
    let unveraendert := klientenTermine.filter fun t => t.datum < abDatum
    sortByDatum (unveraendert ++ verschoben)

/-- `markiere_als_ptg` (prognose_improved.py): quota check first, then
retype the first row at the date to PTG numbered `count + 1`, insert a
replacement session one week later, shift all strictly later rows by a
week, and re-sort.  Returns (chain, success flag, error message). -/
def markiere_als_ptg (s : Store) (klient : String) (terminDatum : Nat)
    (quartal : Nat × Nat) : List Termin × Bool × String :=
  let klientenTermine := hole_klienten_termine s klient
  if klientenTermine.isEmpty then
    (klientenTermine, false, "Keine Termine gefunden")
  else
    let ptgTermineQuartal := klientenTermine.filter fun t =>
      t.sitzungsart == "PTG" && quartalOf t.datum == quartal
    let anzahlPtg := ptgTermineQuartal.length
    if 3 ≤ anzahlPtg then
      (klientenTermine, false, "PTG-Limit erreicht")
    else
      let terminIndex := klientenTermine.findIdx fun t => t.datum == terminDatum
      if h : terminIndex < klientenTermine.length then
        let orig := klientenTermine.get ⟨terminIndex, h⟩
        let ptgNummer := anzahlPtg + 1
        let retyped := klientenTermine.set terminIndex
          { orig with sitzungsart := "PTG", nummer := some ptgNummer }
        let neueSitzung : Termin :=
          { datum := terminDatum + SITZUNGS_DAUER_TAGE, klient := some klient
            sitzungsart := orig.sitzungsart, nummer := orig.nummer }
        let folgeTermine := (retyped.filter fun t => terminDatum < t.datum).map
          fun t => { t with datum := t.datum + SITZUNGS_DAUER_TAGE }
        let vorTermin := retyped.filter fun t => t.datum ≤ terminDatum
        (sortByDatum (vorTermin ++ [neueSitzung] ++ folgeTermine), true, "")
      else
        (klientenTermine, false, "Termin nicht gefunden")

/-- Modelled from the spec (section 7): the error-signalling contract of
`cancel_and_shift` - a missing target date must surface
`AppointmentNotFoundError` instead of an ordinary result.  The source
(`verschiebe_termin_callback`) has no such channel: it prints and
returns normally. -/
def cancel_and_shift_spec (s : Store) (d : Nat) (client : String) :
    Except String Store :=
  if (hole_klienten_termine s client).all fun t => !(t.datum == d) then
    Except.error "AppointmentNotFoundError"
  else
    Except.ok (verschiebe_termin_callback s d client)

/-- The fresh PTG row of `markiere_ptg` (prognose.py) before the date
column is rewritten (`new_row` has no date of its own). -/
def ptg_new_row (client : String) (n : Nat) : Termin :=
  { datum := 0, klient := some client, sitzungsart := "PTG", nummer := some n }

/-! ## Concrete scenario inputs -/

/-- Client "CD": KZT appointments numbered 1..24, weekly, generated from
the anchor 2025-02-03 (so KZT 1 falls on 2025-02-10). -/
def storeCD : Store :=
  generiere_folgesitzungen "CD" (mkDate 2025 2 3) "KZT" 1 24

/-- A store with client "CD" (KZT 1..24), a second client "XY" and one
Supervision entry - the failing input for the conversion frame bug. -/
def storeC3 : Store :=
  generiere_folgesitzungen "CD" (mkDate 2025 2 3) "KZT" 1 24 ++
    [{ datum := mkDate 2025 2 4, klient := some "XY",
       sitzungsart := "Sprechstunde", nummer := some 1 },
     { datum := mkDate 2025 2 5, klient := none,
       sitzungsart := "Supervision", nummer := none }]

/-- Client "EF": a weekly chain 2025-05-05 .. 2025-06-02 (KZT 1..5). -/
def chainEF : List Termin :=
  generiere_folgesitzungen "EF" (mkDate 2025 4 28) "KZT" 1 5

/-- A store for the C6 miss case: client "AB" has one appointment on
2025-03-03 and none on 2025-03-04. -/
def storeC6 : Store :=
  [{ datum := mkDate 2025 3 3, klient := some "AB",
     sitzungsart := "KZT", nummer := some 1 }]

/-- A store for the C7 quota scenario: client "GH" has three PTG
appointments inside Q1 2025 plus two KZT appointments, one dated in Q1
(2025-03-24) and one dated in Q2 (2025-04-07). -/
def storeC7 : Store :=
  [{ datum := mkDate 2025 3 3, klient := some "GH",
     sitzungsart := "PTG", nummer := some 1 },
   { datum := mkDate 2025 3 10, klient := some "GH",
     sitzungsart := "PTG", nummer := some 2 },
   { datum := mkDate 2025 3 17, klient := some "GH",
     sitzungsart := "PTG", nummer := some 3 },
   { datum := mkDate 2025 3 24, klient := some "GH",
     sitzungsart := "KZT", nummer := some 4 },
   { datum := mkDate 2025 4 7, klient := some "GH",
     sitzungsart := "KZT", nummer := some 5 }]

/-- A store for the C9 counterexample: client "AB" has a single
appointment on Friday 2025-05-09. -/
def storeC9 : Store :=
  [{ datum := mkDate 2025 5 9, klient := some "AB",
     sitzungsart := "KZT", nummer := some 1 }]

/-- A chain with two appointments on the same date (2025-03-03) for the
duplicate-date resolution claim. -/
def chainC10 : List Termin :=
  [{ datum := mkDate 2025 2 24, klient := some "AB",
     sitzungsart := "KZT", nummer := some 1 },
   { datum := mkDate 2025 3 3, klient := some "AB",
     sitzungsart := "KZT", nummer := some 2 },
   { datum := mkDate 2025 3 3, klient := some "AB",
     sitzungsart := "PTG", nummer := some 1 },
   { datum := mkDate 2025 3 10, klient := some "AB",
     sitzungsart := "KZT", nummer := some 3 }]

/-- The snapshot of appointments processed by `loesche_urlaub`: the
non-Supervision rows of the targeted client(s) inside the inclusive
window, in store order. -/
def urlaubsTermine (s : Store) (start ende : Nat) (klient : String) :
    List Termin :=
  (if klient = "Alle" then s.filter fun t => !(t.sitzungsart == "Supervision")
   else (s.filter fun t => !(t.sitzungsart == "Supervision")).filter
     fun t => t.klient == some klient).filter
    fun t => start ≤ t.datum && t.datum ≤ ende

/-! ## Helper lemmas -/

theorem generiere_length (k : String) (a : Nat) (art : String) (sn en : Nat) :
    (generiere_folgesitzungen k a art sn en).length = en + 1 - sn := by
  simp [generiere_folgesitzungen]

theorem generiere_getElem (k : String) (a : Nat) (art : String) (sn en j : Nat)
    (hj : j < (generiere_folgesitzungen k a art sn en).length) :
    (generiere_folgesitzungen k a art sn en).get ⟨j, hj⟩ =
      { datum := a + (j + 1) * 7, klient := some k,
        sitzungsart := art, nummer := some (sn + j) } := by
  simp only [generiere_folgesitzungen, List.get_eq_getElem, List.getElem_map,
    List.getElem_range', SITZUNGS_DAUER_TAGE, Termin.mk.injEq, Option.some.injEq]
  refine ⟨?_, trivial, trivial, ?_⟩ <;> omega

/-! ## C1: sequence generator -/

/-- C1: for `start_nr ≤ end_nr ≤ catalog[art]`, `generiere_folgesitzungen`
returns exactly one appointment per `i` in `start_nr..end_nr`: the `j`-th
generated appointment (0-based, so `i = start_nr + j`) is dated
`anchor + (j + 1) * 7` and carries `sequence_number = start_nr + j`; the
first generated appointment falls strictly 7 days after the anchor and no
appointment falls on the anchor itself, so the sequence numbers are
strictly increasing with no gaps. -/
theorem C1_sequence_generator (klientName : String) (anchor : Nat)
    (art : String) (startNr endNr m : Nat)
    (hrange : startNr ≤ endNr) (hcat : SITZUNGEN_TYPEN art = some m)
    (hend : endNr ≤ m) :
    (generiere_folgesitzungen klientName anchor art startNr endNr).length
        = endNr - startNr + 1 ∧
    (∀ j (hj : j < (generiere_folgesitzungen klientName anchor art startNr
        endNr).length),
      (generiere_folgesitzungen klientName anchor art startNr endNr).get
          ⟨j, hj⟩ =
        { datum := anchor + (j + 1) * 7, klient := some klientName,
          sitzungsart := art, nummer := some (startNr + j) }) ∧
    ((generiere_folgesitzungen klientName anchor art startNr endNr).map
        Termin.datum).head? = some (anchor + 7) ∧
    (∀ t ∈ generiere_folgesitzungen klientName anchor art startNr endNr,
      anchor < t.datum) := by
  have hlen : (generiere_folgesitzungen klientName anchor art startNr
      endNr).length = endNr + 1 - startNr := generiere_length _ _ _ _ _
  have hpos : 0 < (generiere_folgesitzungen klientName anchor art startNr
      endNr).length := by omega
  refine ⟨by omega, fun j hj => generiere_getElem _ _ _ _ _ _ hj, ?_, ?_⟩
  · have h0 : ((generiere_folgesitzungen klientName anchor art startNr
        endNr).map Termin.datum).head? =
        ((generiere_folgesitzungen klientName anchor art startNr
          endNr).map Termin.datum)[0]? := by
      rw [List.head?_eq_getElem?]
    rw [h0, List.getElem?_eq_getElem (by simpa using hpos)]
    have := generiere_getElem klientName anchor art startNr endNr 0 hpos
    simp only [List.get_eq_getElem] at this
    simp [this]
  · intro t ht
    obtain ⟨j, hj, rfl⟩ := List.mem_iff_getElem.mp ht
    have := generiere_getElem klientName anchor art startNr endNr j hj
    simp only [List.get_eq_getElem] at this
    rw [this]
    show anchor < anchor + (j + 1) * 7
    omega

/-- C1 witness: the theorem applied to `generate("AB", day 0, "KZT", 1, 24)`. -/
theorem C1_sequence_generator_witness :
    (1 : Nat) ≤ 24 ∧ SITZUNGEN_TYPEN "KZT" = some 24 ∧ (24 : Nat) ≤ 24 ∧
    ((generiere_folgesitzungen "AB" 0 "KZT" 1 24).length = 24 - 1 + 1 ∧
     (∀ j (hj : j < (generiere_folgesitzungen "AB" 0 "KZT" 1 24).length),
       (generiere_folgesitzungen "AB" 0 "KZT" 1 24).get ⟨j, hj⟩ =
         { datum := 0 + (j + 1) * 7, klient := some "AB",
           sitzungsart := "KZT", nummer := some (1 + j) }) ∧
     ((generiere_folgesitzungen "AB" 0 "KZT" 1 24).map
         Termin.datum).head? = some (0 + 7) ∧
     (∀ t ∈ generiere_folgesitzungen "AB" 0 "KZT" 1 24, 0 < t.datum)) :=
  ⟨by decide, by decide, by decide,
    C1_sequence_generator "AB" 0 "KZT" 1 24 24 (by decide) (by decide)
      (by decide)⟩

/-! ## Store and chain helper lemmas -/

theorem mem_hole_klient (s : Store) (k : String) :
    ∀ t ∈ hole_klienten_termine s k, t.klient = some k := by
  intro t ht
  simp only [hole_klienten_termine, List.mem_filter, beq_iff_eq] at ht
  exact ht.2

theorem hole_update_self (s : Store) (k : String) (neu : List Termin)
    (hneu : ∀ t ∈ neu, t.klient = some k) :
    hole_klienten_termine (update_klient_termine_in_session s k neu) k
      = neu := by
  simp only [hole_klienten_termine, update_klient_termine_in_session,
    List.filter_append, List.filter_filter, Bool.and_not_self,
    List.filter_false, List.nil_append]
  exact List.filter_eq_self.mpr fun t ht => by simp [hneu t ht]

theorem hole_update_other (s : Store) (k k' : String) (neu : List Termin)
    (hkk : k' ≠ k) (hneu : ∀ t ∈ neu, t.klient = some k) :
    hole_klienten_termine (update_klient_termine_in_session s k neu) k'
      = hole_klienten_termine s k' := by
  simp only [hole_klienten_termine, update_klient_termine_in_session,
    List.filter_append, List.filter_filter]
  have h1 : (neu.filter fun t => t.klient == some k') = [] := by
    refine List.filter_eq_nil_iff.mpr fun t ht => ?_
    simp only [hneu t ht, beq_iff_eq, Option.some.injEq]
    intro h
    exact hkk h.symm
  have h2 : (s.filter fun t => (t.klient == some k') && !(t.klient == some k))
      = s.filter fun t => t.klient == some k' := by
    refine List.filter_congr fun t ht => ?_
    cases hkl : t.klient == some k'
    · simp
    · simp only [Bool.true_and]
      simp only [beq_iff_eq] at hkl
      simp [hkl, hkk]
  rw [h1, h2, List.append_nil]

theorem get_index_none_iff (c : List Termin) (d : Nat) :
    get_index c d = none ↔ ∀ t ∈ c, t.datum ≠ d := by
  simp [get_index, List.findIdx?_eq_none_iff]

theorem get_index_eq_some_iff (c : List Termin) (d : Nat) (i : Nat) :
    get_index c d = some i ↔
      ∃ h : i < c.length, (c.get ⟨i, h⟩).datum = d ∧
        ∀ j (hj : j < i), (c.get ⟨j, Nat.lt_trans hj h⟩).datum ≠ d := by
  rw [get_index, List.findIdx?_eq_some_iff_findIdx_eq]
  constructor
  · rintro ⟨hi, hfind⟩
    have hspec := (@List.findIdx_eq _ (fun t => t.datum == d) c i hi).mp hfind
    refine ⟨hi, by simpa using hspec.1, fun j hj => by simpa using hspec.2 j hj⟩
  · rintro ⟨hi, hd, hprev⟩
    refine ⟨hi, (@List.findIdx_eq _ (fun t => t.datum == d) c i hi).mpr
      ⟨by simpa using hd, fun j hj => by simpa using hprev j hj⟩⟩

theorem get_index_isSome_iff (c : List Termin) (d : Nat) :
    (get_index c d).isSome ↔ ∃ t ∈ c, t.datum = d := by
  rw [← Option.ne_none_iff_isSome, Ne, get_index_none_iff]
  push_neg
  rfl

theorem set_daten_length (c : List Termin) (ds : List Nat) :
    (set_daten c ds).length = min c.length ds.length := by
  simp [set_daten]

theorem set_daten_get (c : List Termin) (ds : List Nat) (j : Nat)
    (hc : j < c.length) (hd : j < ds.length)
    (hj : j < (set_daten c ds).length) :
    (set_daten c ds).get ⟨j, hj⟩ =
      { c.get ⟨j, hc⟩ with datum := ds.get ⟨j, hd⟩ } := by
  simp [set_daten, List.getElem_zip]

theorem set_daten_map_datum (c : List Termin) (ds : List Nat)
    (h : ds.length = c.length) :
    (set_daten c ds).map Termin.datum = ds := by
  apply List.ext_getElem
  · simp [set_daten, h]
  · intro j h1 h2
    have hc : j < c.length := by
      simp [set_daten_length, h] at h1
      omega
    have hj : j < (set_daten c ds).length := by simpa using h1
    have := set_daten_get c ds j hc h2 hj
    simp only [List.get_eq_getElem] at this
    simp [this]

theorem mem_set_daten (c : List Termin) (ds : List Nat) :
    ∀ t ∈ set_daten c ds, ∃ u ∈ c,
      t.klient = u.klient ∧ t.sitzungsart = u.sitzungsart ∧
        t.nummer = u.nummer := by
  intro t ht
  simp only [set_daten, List.mem_map] at ht
  obtain ⟨p, hp, rfl⟩ := ht
  exact ⟨p.1, (List.of_mem_zip hp).1, rfl, rfl, rfl⟩

theorem le_foldl_max (l : List Nat) (b : Nat) :
    b ≤ l.foldl max b ∧ ∀ x ∈ l, x ≤ l.foldl max b := by
  induction l generalizing b with
  | nil => simp
  | cons y ys ih =>
      refine ⟨?_, fun x hx => ?_⟩
      · exact le_trans (le_max_left b y) (ih (max b y)).1
      · rcases List.mem_cons.mp hx with rfl | hx
        · exact le_trans (le_max_right b x) (ih (max b x)).1
        · exact (ih (max b y)).2 x hx

theorem foldl_max_le (l : List Nat) (b m : Nat) (hb : b ≤ m)
    (h : ∀ x ∈ l, x ≤ m) : l.foldl max b ≤ m := by
  induction l generalizing b with
  | nil => simpa
  | cons y ys ih =>
      exact ih (max b y) (max_le hb (h y (List.mem_cons_self y ys))) fun x hx =>
        h x (List.mem_cons_of_mem y hx)

theorem le_max_datum (c : List Termin) (t : Termin) (ht : t ∈ c) :
    t.datum ≤ max_datum c :=
  (le_foldl_max (c.map Termin.datum) 0).2 t.datum (List.mem_map_of_mem _ ht)

theorem max_datum_le (c : List Termin) (m : Nat)
    (h : ∀ t ∈ c, t.datum ≤ m) : max_datum c ≤ m := by
  refine foldl_max_le _ 0 m (Nat.zero_le m) fun x hx => ?_
  obtain ⟨t, ht, rfl⟩ := List.mem_map.mp hx
  exact h t ht

theorem weekly_getElem_add (c : List Termin)
    (hweek : ∀ j (h : j + 1 < c.length),
      (c.get ⟨j + 1, h⟩).datum = (c.get ⟨j, Nat.lt_of_succ_lt h⟩).datum + 7) :
    ∀ k i (h : i + k < c.length),
      (c.get ⟨i + k, h⟩).datum =
        (c.get ⟨i, by omega⟩).datum + 7 * k := by
  intro k
  induction k with
  | zero => intro i h; simp
  | succ n ih =>
      intro i h
      have h1 : (i + n) + 1 < c.length := by omega
      have h2 := hweek (i + n) h1
      have h3 := ih i (by omega)
      have h4 : (c.get ⟨i + (n + 1), h⟩).datum = (c.get ⟨(i + n) + 1, h1⟩).datum := rfl
      rw [h4, h2, h3]
      ring

theorem max_datum_weekly (c : List Termin) (hne : 0 < c.length)
    (hweek : ∀ j (h : j + 1 < c.length),
      (c.get ⟨j + 1, h⟩).datum = (c.get ⟨j, Nat.lt_of_succ_lt h⟩).datum + 7) :
    max_datum c = (c.get ⟨c.length - 1, by omega⟩).datum := by
  apply Nat.le_antisymm
  · refine max_datum_le c _ fun t ht => ?_
    obtain ⟨n, hn, rfl⟩ := List.mem_iff_get.mp ht
    have key := weekly_getElem_add c hweek (c.length - 1 - n.1) n.1 (by omega)
    have he : c.get ⟨n.1 + (c.length - 1 - n.1), by omega⟩
        = c.get ⟨c.length - 1, by omega⟩ := by
      congr 1
      simp only [Fin.mk.injEq]
      omega
    rw [he] at key
    have heta : (c.get ⟨n.1, n.2⟩).datum = (c.get n).datum := rfl
    omega
  · exact le_max_datum c _ (List.get_mem c _ _)

theorem eraseIdx_eq_erase_of_first (l : List Nat) (d : Nat) :
    ∀ i (hi : i < l.length), l.get ⟨i, hi⟩ = d →
      (∀ j (hj : j < i), l.get ⟨j, Nat.lt_trans hj hi⟩ ≠ d) →
      l.eraseIdx i = l.erase d := by
  induction l with
  | nil => intro i hi; simp at hi
  | cons x xs ih =>
      intro i hi hd hfirst
      cases i with
      | zero =>
          simp only [List.get_eq_getElem, List.getElem_cons_zero] at hd
          subst hd
          simp [List.eraseIdx, List.erase_cons_head]
      | succ n =>
          have hx : x ≠ d := by
            have := hfirst 0 (Nat.succ_pos n)
            simpa using this
          have hn : n < xs.length := by simpa using hi
          have hd' : xs.get ⟨n, hn⟩ = d := by simpa using hd
          have hfirst' : ∀ j (hj : j < n),
              xs.get ⟨j, Nat.lt_trans hj hn⟩ ≠ d := by
            intro j hj
            have := hfirst (j + 1) (by omega)
            simpa using this
          have herase : (x :: xs).erase d = x :: xs.erase d := by
            rw [List.erase_cons_tail]
            simp [hx]
          rw [herase]
          simp only [List.eraseIdx_cons_succ, List.cons.injEq, true_and]
          exact ih n hn hd' hfirst'

theorem verschiebe_chain_eq (c : List Termin) (d : Nat) (idx : Nat)
    (hidx : get_index c d = some idx) :
    verschiebe_termin_chain c d =
      set_daten c (((c.map Termin.datum) ++ [max_datum c + 7]).eraseIdx idx) := by
  simp only [verschiebe_termin_chain, hidx]

theorem verschiebe_chain_length (c : List Termin) (d : Nat) (idx : Nat)
    (hidx : get_index c d = some idx) :
    (verschiebe_termin_chain c d).length = c.length := by
  obtain ⟨hi, hd, hfirst⟩ := (get_index_eq_some_iff c d idx).mp hidx
  rw [verschiebe_chain_eq c d idx hidx, set_daten_length, List.length_eraseIdx]
  simp only [List.length_append, List.length_map, List.length_singleton]
  have : idx < c.length + 1 := by omega
  simp [this]

theorem set_daten_getElem? (c : List Termin) (ds : List Nat) (j : Nat)
    (hc : j < c.length) (hd : j < ds.length) :
    (set_daten c ds)[j]? =
      some { c.get ⟨j, hc⟩ with datum := ds.get ⟨j, hd⟩ } := by
  have hb : j < (set_daten c ds).length := by
    rw [set_daten_length]
    omega
  rw [List.getElem?_eq_getElem hb]
  exact congrArg some (set_daten_get c ds j hc hd hb)

theorem verschiebe_chain_getElem? (c : List Termin) (d : Nat) (idx : Nat)
    (hidx : get_index c d = some idx) (j : Nat) (hj : j < c.length) :
    (verschiebe_termin_chain c d)[j]? =
      some { c.get ⟨j, hj⟩ with datum :=
        (if j < idx then (c.get ⟨j, hj⟩).datum
         else if h : j + 1 < c.length then (c.get ⟨j + 1, h⟩).datum
         else max_datum c + 7) } := by
  obtain ⟨hi, hd, hfirst⟩ := (get_index_eq_some_iff c d idx).mp hidx
  have hlen : (((c.map Termin.datum) ++ [max_datum c + 7]).eraseIdx idx).length
      = c.length := by
    rw [List.length_eraseIdx]
    simp only [List.length_append, List.length_map, List.length_singleton]
    have : idx < c.length + 1 := by omega
    simp [this]
  have hb : j < (((c.map Termin.datum) ++ [max_datum c + 7]).eraseIdx idx).length := by
    omega
  have hdat : (((c.map Termin.datum) ++ [max_datum c + 7]).eraseIdx idx).get ⟨j, hb⟩ =
      (if j < idx then (c.get ⟨j, hj⟩).datum
       else if h : j + 1 < c.length then (c.get ⟨j + 1, h⟩).datum
       else max_datum c + 7) := by
    rw [List.get_eq_getElem, List.getElem_eraseIdx]
    by_cases hc1 : j < idx
    · rw [dif_pos hc1, if_pos hc1]
      rw [List.getElem_append_left (by simpa using hj)]
      simp
    · rw [dif_neg hc1, if_neg hc1]
      by_cases hc2 : j + 1 < c.length
      · rw [dif_pos hc2]
        rw [List.getElem_append_left (by simpa using hc2)]
        simp
      · rw [dif_neg hc2]
        rw [List.getElem_append_right (by simp; omega)]
        have h0 : j + 1 - (c.map Termin.datum).length = 0 := by simp; omega
        simp [h0]
  calc (verschiebe_termin_chain c d)[j]?
      = (set_daten c
          (((c.map Termin.datum) ++ [max_datum c + 7]).eraseIdx idx))[j]? := by
        rw [verschiebe_chain_eq c d idx hidx]
    _ = some { c.get ⟨j, hj⟩ with datum :=
          (((c.map Termin.datum) ++ [max_datum c + 7]).eraseIdx idx).get ⟨j, hb⟩ } :=
        set_daten_getElem? c _ j hj hb
    _ = _ := by rw [hdat]

/-! ## C4: cancellation with shift -/

/-- C4: when the chain has an appointment at `d` (first match at position
`idx`), `verschiebe_termin_callback`'s chain transformation keeps the
chain length and the whole type/number sequence, turns the date column
into the old column minus `d` plus a new tail `max + 7`, and - on a
weekly-spaced chain - moves every appointment from the cancelled
position onward exactly one week later while earlier appointments stay;
concretely, cancelling 2025-05-05 in the "EF" chain ending 2025-06-02
keeps all five rows and ends with a tail dated 2025-06-09. -/
theorem C4_cancel_and_shift (c : List Termin) (d : Nat) (idx : Nat)
    (hidx : get_index c d = some idx) :
    (verschiebe_termin_chain c d).length = c.length ∧
    (verschiebe_termin_chain c d).map
        (fun t => (t.klient, t.sitzungsart, t.nummer))
      = c.map (fun t => (t.klient, t.sitzungsart, t.nummer)) ∧
    (verschiebe_termin_chain c d).map Termin.datum
      = (c.map Termin.datum).erase d ++ [max_datum c + 7] ∧
    ((∀ j (h : j + 1 < c.length),
        (c.get ⟨j + 1, h⟩).datum = (c.get ⟨j, Nat.lt_of_succ_lt h⟩).datum + 7) →
      ∀ j (hj : j < c.length),
        (j < idx → (verschiebe_termin_chain c d)[j]? = some (c.get ⟨j, hj⟩)) ∧
        (idx ≤ j → ((verschiebe_termin_chain c d)[j]?).map Termin.datum
            = some ((c.get ⟨j, hj⟩).datum + 7))) ∧
    verschiebe_termin_chain chainEF (mkDate 2025 5 5) =
      [{ datum := mkDate 2025 5 12, klient := some "EF",
         sitzungsart := "KZT", nummer := some 1 },
       { datum := mkDate 2025 5 19, klient := some "EF",
         sitzungsart := "KZT", nummer := some 2 },
       { datum := mkDate 2025 5 26, klient := some "EF",
         sitzungsart := "KZT", nummer := some 3 },
       { datum := mkDate 2025 6 2, klient := some "EF",
         sitzungsart := "KZT", nummer := some 4 },
       { datum := mkDate 2025 6 9, klient := some "EF",
         sitzungsart := "KZT", nummer := some 5 }] := by
  obtain ⟨hi, hd, hfirst⟩ := (get_index_eq_some_iff c d idx).mp hidx
  have hlen := verschiebe_chain_length c d idx hidx
  have hget : ∀ j (hj : j < c.length)
      (hb : j < (verschiebe_termin_chain c d).length),
      (verschiebe_termin_chain c d).get ⟨j, hb⟩ =
        { c.get ⟨j, hj⟩ with datum :=
          (if j < idx then (c.get ⟨j, hj⟩).datum
           else if h : j + 1 < c.length then (c.get ⟨j + 1, h⟩).datum
           else max_datum c + 7) } := by
    intro j hj hb
    have h1 := verschiebe_chain_getElem? c d idx hidx j hj
    rw [List.getElem?_eq_getElem hb] at h1
    exact Option.some_injective _ h1
  refine ⟨hlen, ?_, ?_, ?_, by decide⟩
  · apply List.ext_getElem
    · simp [hlen]
    · intro j h1 h2
      have hj : j < c.length := by simpa using h2
      have hb : j < (verschiebe_termin_chain c d).length := by omega
      rw [List.getElem_map, List.getElem_map]
      have := hget j hj hb
      simp only [List.get_eq_getElem] at this
      rw [this]
  · have hch := verschiebe_chain_eq c d idx hidx
    have hdlen : ((c.map Termin.datum) ++ [max_datum c + 7]).length
        = c.length + 1 := by simp
    have herase : ((c.map Termin.datum) ++ [max_datum c + 7]).eraseIdx idx
        = (c.map Termin.datum).eraseIdx idx ++ [max_datum c + 7] :=
      List.eraseIdx_append_of_lt_length (by simpa using hi) _
    have herase2 : (c.map Termin.datum).eraseIdx idx
        = (c.map Termin.datum).erase d := by
      refine eraseIdx_eq_erase_of_first _ d idx (by simpa using hi) ?_ ?_
      · simpa using hd
      · intro j hj
        have := hfirst j hj
        simpa using this
    have hmem : d ∈ c.map Termin.datum :=
      List.mem_map.mpr ⟨c.get ⟨idx, hi⟩, List.get_mem c _ _, hd⟩
    rw [hch, set_daten_map_datum _ _
      (by rw [herase, herase2]; simp [List.length_erase_of_mem hmem]; omega),
      herase, herase2]
  · intro hweek j hj
    have hb : j < (verschiebe_termin_chain c d).length := by omega
    have hj' := hget j hj hb
    constructor
    · intro hlt
      rw [List.getElem?_eq_getElem hb]
      have : (verschiebe_termin_chain c d).get ⟨j, hb⟩ = c.get ⟨j, hj⟩ := by
        rw [hj', if_pos hlt]
      exact congrArg some this
    · intro hge
      rw [List.getElem?_eq_getElem hb]
      have hnlt : ¬ j < idx := by omega
      by_cases hc2 : j + 1 < c.length
      · have : ((verschiebe_termin_chain c d).get ⟨j, hb⟩).datum
            = (c.get ⟨j, hj⟩).datum + 7 := by
          rw [hj', if_neg hnlt, dif_pos hc2]
          exact hweek j hc2
        simpa using congrArg some this
      · have hgeteq : c.get ⟨c.length - 1, by omega⟩ = c.get ⟨j, hj⟩ := by
          congr 1
          simp only [Fin.mk.injEq]
          omega
        have : ((verschiebe_termin_chain c d).get ⟨j, hb⟩).datum
            = (c.get ⟨j, hj⟩).datum + 7 := by
          rw [hj', if_neg hnlt, dif_neg hc2]
          show max_datum c + 7 = (c.get ⟨j, hj⟩).datum + 7
          rw [max_datum_weekly c (by omega) hweek, hgeteq]
        simpa using congrArg some this

/-- C4 witness: the theorem applied to the "EF" scenario chain. -/
theorem C4_cancel_and_shift_witness :
    get_index chainEF (mkDate 2025 5 5) = some 0 ∧
    ((verschiebe_termin_chain chainEF (mkDate 2025 5 5)).length
        = chainEF.length ∧
     (verschiebe_termin_chain chainEF (mkDate 2025 5 5)).map
         (fun t => (t.klient, t.sitzungsart, t.nummer))
       = chainEF.map (fun t => (t.klient, t.sitzungsart, t.nummer)) ∧
     (verschiebe_termin_chain chainEF (mkDate 2025 5 5)).map Termin.datum
       = (chainEF.map Termin.datum).erase (mkDate 2025 5 5)
           ++ [max_datum chainEF + 7] ∧
     ((∀ j (h : j + 1 < chainEF.length),
         (chainEF.get ⟨j + 1, h⟩).datum
           = (chainEF.get ⟨j, Nat.lt_of_succ_lt h⟩).datum + 7) →
       ∀ j (hj : j < chainEF.length),
         (j < 0 → (verschiebe_termin_chain chainEF (mkDate 2025 5 5))[j]?
             = some (chainEF.get ⟨j, hj⟩)) ∧
         (0 ≤ j → ((verschiebe_termin_chain chainEF (mkDate 2025 5 5))[j]?).map
               Termin.datum
             = some ((chainEF.get ⟨j, hj⟩).datum + 7))) ∧
     verschiebe_termin_chain chainEF (mkDate 2025 5 5) =
       [{ datum := mkDate 2025 5 12, klient := some "EF",
          sitzungsart := "KZT", nummer := some 1 },
        { datum := mkDate 2025 5 19, klient := some "EF",
          sitzungsart := "KZT", nummer := some 2 },
        { datum := mkDate 2025 5 26, klient := some "EF",
          sitzungsart := "KZT", nummer := some 3 },
        { datum := mkDate 2025 6 2, klient := some "EF",
          sitzungsart := "KZT", nummer := some 4 },
        { datum := mkDate 2025 6 9, klient := some "EF",
          sitzungsart := "KZT", nummer := some 5 }]) :=
  ⟨by decide, C4_cancel_and_shift chainEF (mkDate 2025 5 5) 0 (by decide)⟩

/-! ## C2: KZT to LZT conversion -/

theorem generiere_mem_sitzungsart (k : String) (a : Nat) (art : String)
    (sn en : Nat) :
    ∀ t ∈ generiere_folgesitzungen k a art sn en, t.sitzungsart = art := by
  intro t ht
  simp only [generiere_folgesitzungen, List.mem_map] at ht
  obtain ⟨i, _, rfl⟩ := ht
  rfl

theorem not_num_ge_eq_num_lt (t : Termin) (n m : Nat) (hm : t.nummer = some m) :
    (!(num_ge t n)) = num_lt t n := by
  simp only [num_ge, num_lt, hm]
  by_cases h : n ≤ m
  · simp [h, Nat.not_lt.mpr h]
  · simp [h, Nat.lt_of_not_le h]

/-- C2: for a client whose chain has numbered KZT appointments and a
conversion number at least the smallest surviving KZT number,
`convert_kzt_to_lzt_callback` keeps exactly the KZT appointments numbered
below `from_nr` (unchanged, in order), drops every KZT appointment
numbered `≥ from_nr`, and appends the weekly LZT run `from_nr..60`
generated from the anchor "latest date among retained KZT appointments,
or the chain's latest date when none are retained"; in the "CD" scenario
(KZT 1..24 weekly from anchor 2025-02-03) converting at 10 retains
exactly KZT 1..9 (last dated 2025-04-07) and produces LZT 10..60 weekly
with the first LZT on 2025-04-14. -/
theorem C2_convert_kzt_to_lzt (s : Store) (k : String) (fromNr : Nat)
    (hnum : ∀ t ∈ hole_klienten_termine s k, t.sitzungsart = "KZT" →
      t.nummer ≠ none)
    (hkzt : ∃ t ∈ hole_klienten_termine s k, t.sitzungsart = "KZT")
    (hmin : ∃ t ∈ hole_klienten_termine s k, t.sitzungsart = "KZT" ∧
      num_lt t (fromNr + 1) = true) :
    (convert_kzt_to_lzt_callback s k fromNr).filter
        (fun t => t.sitzungsart == "KZT")
      = (hole_klienten_termine s k).filter
          (fun t => t.sitzungsart == "KZT" && num_lt t fromNr) ∧
    (convert_kzt_to_lzt_callback s k fromNr).filter
        (fun t => t.sitzungsart == "KZT" && num_ge t fromNr) = [] ∧
    convert_kzt_to_lzt_callback s k fromNr
      = (hole_klienten_termine s k).filter
          (fun t => !(t.sitzungsart == "KZT" && num_ge t fromNr))
        ++ generiere_folgesitzungen k
            (if ((hole_klienten_termine s k).filter
                (fun t => t.sitzungsart == "KZT" && num_lt t fromNr)).isEmpty
             then max_datum (hole_klienten_termine s k)
             else max_datum ((hole_klienten_termine s k).filter
                (fun t => t.sitzungsart == "KZT" && num_lt t fromNr)))
            "LZT" fromNr 60 ∧
    (convert_kzt_to_lzt_callback storeCD "CD" 10).filter
        (fun t => t.sitzungsart == "KZT")
      = generiere_folgesitzungen "CD" (mkDate 2025 2 3) "KZT" 1 9 ∧
    (convert_kzt_to_lzt_callback storeCD "CD" 10).filter
        (fun t => t.sitzungsart == "LZT")
      = generiere_folgesitzungen "CD" (mkDate 2025 4 7) "LZT" 10 60 := by
  have hnil1 : ((generiere_folgesitzungen k
      (if ((hole_klienten_termine s k).filter
          (fun t => t.sitzungsart == "KZT" && num_lt t fromNr)).isEmpty
       then max_datum (hole_klienten_termine s k)
       else max_datum ((hole_klienten_termine s k).filter
          (fun t => t.sitzungsart == "KZT" && num_lt t fromNr)))
      "LZT" fromNr 60).filter (fun t => t.sitzungsart == "KZT")) = [] := by
    refine List.filter_eq_nil_iff.mpr fun t ht => ?_
    have := generiere_mem_sitzungsart _ _ _ _ _ t ht
    simp [this]
  have hnil2 : ((generiere_folgesitzungen k
      (if ((hole_klienten_termine s k).filter
          (fun t => t.sitzungsart == "KZT" && num_lt t fromNr)).isEmpty
       then max_datum (hole_klienten_termine s k)
       else max_datum ((hole_klienten_termine s k).filter
          (fun t => t.sitzungsart == "KZT" && num_lt t fromNr)))
      "LZT" fromNr 60).filter
        (fun t => t.sitzungsart == "KZT" && num_ge t fromNr)) = [] := by
    refine List.filter_eq_nil_iff.mpr fun t ht => ?_
    have := generiere_mem_sitzungsart _ _ _ _ _ t ht
    simp [this]
  have hdef : convert_kzt_to_lzt_callback s k fromNr
      = (hole_klienten_termine s k).filter
          (fun t => !(t.sitzungsart == "KZT" && num_ge t fromNr))
        ++ generiere_folgesitzungen k
            (if ((hole_klienten_termine s k).filter
                (fun t => t.sitzungsart == "KZT" && num_lt t fromNr)).isEmpty
             then max_datum (hole_klienten_termine s k)
             else max_datum ((hole_klienten_termine s k).filter
                (fun t => t.sitzungsart == "KZT" && num_lt t fromNr)))
            "LZT" fromNr 60 := rfl
  refine ⟨?_, ?_, hdef, by decide, by decide⟩
  · rw [hdef, List.filter_append, hnil1, List.append_nil, List.filter_filter]
    refine List.filter_congr fun t ht => ?_
    by_cases hart : t.sitzungsart = "KZT"
    · obtain ⟨n, hn⟩ := Option.ne_none_iff_exists'.mp (hnum t ht hart)
      rw [← not_num_ge_eq_num_lt t fromNr n hn]
      simp [hart]
    · have hb : (t.sitzungsart == "KZT") = false := beq_eq_false_iff_ne.mpr hart
      simp [hb]
  · rw [hdef, List.filter_append, hnil2, List.append_nil, List.filter_filter]
    refine List.filter_eq_nil_iff.mpr fun t ht => ?_
    cases h1 : (t.sitzungsart == "KZT" && num_ge t fromNr) <;> simp [h1]

/-- C2 witness: the theorem applied to the "CD" scenario store. -/
theorem C2_convert_kzt_to_lzt_witness :
    (∀ t ∈ hole_klienten_termine storeCD "CD", t.sitzungsart = "KZT" →
      t.nummer ≠ none) ∧
    (∃ t ∈ hole_klienten_termine storeCD "CD", t.sitzungsart = "KZT") ∧
    (∃ t ∈ hole_klienten_termine storeCD "CD", t.sitzungsart = "KZT" ∧
      num_lt t 11 = true) ∧
    ((convert_kzt_to_lzt_callback storeCD "CD" 10).filter
        (fun t => t.sitzungsart == "KZT")
      = (hole_klienten_termine storeCD "CD").filter
          (fun t => t.sitzungsart == "KZT" && num_lt t 10) ∧
     (convert_kzt_to_lzt_callback storeCD "CD" 10).filter
        (fun t => t.sitzungsart == "KZT" && num_ge t 10) = [] ∧
     convert_kzt_to_lzt_callback storeCD "CD" 10
      = (hole_klienten_termine storeCD "CD").filter
          (fun t => !(t.sitzungsart == "KZT" && num_ge t 10))
        ++ generiere_folgesitzungen "CD"
            (if ((hole_klienten_termine storeCD "CD").filter
                (fun t => t.sitzungsart == "KZT" && num_lt t 10)).isEmpty
             then max_datum (hole_klienten_termine storeCD "CD")
             else max_datum ((hole_klienten_termine storeCD "CD").filter
                (fun t => t.sitzungsart == "KZT" && num_lt t 10)))
            "LZT" 10 60 ∧
     (convert_kzt_to_lzt_callback storeCD "CD" 10).filter
        (fun t => t.sitzungsart == "KZT")
      = generiere_folgesitzungen "CD" (mkDate 2025 2 3) "KZT" 1 9 ∧
     (convert_kzt_to_lzt_callback storeCD "CD" 10).filter
        (fun t => t.sitzungsart == "LZT")
      = generiere_folgesitzungen "CD" (mkDate 2025 4 7) "LZT" 10 60) :=
  ⟨by decide, by decide, by decide,
    C2_convert_kzt_to_lzt storeCD "CD" 10 (by decide) (by decide) (by decide)⟩

/-! ## C3: frame effect of mutating operations -/

/-- C3 (failing-input evaluation): `convert_kzt_to_lzt_callback`
(prognose.py) assigns the whole session store the value
`pd.concat([klient_termine_bereinigt, neue_sitzungen])`, i.e. only the
selected client's cleaned chain plus the new LZT run.  On a store holding
client "CD", client "XY" and a Supervision entry, converting "CD" at 10
therefore erases "XY"'s appointments and the Supervision entry -
contradicting the claim that every mutating core operation leaves every
other client's appointments and all Supervision entries untouched. -/
theorem C3_convert_erases_other_clients :
    hole_klienten_termine storeC3 "XY" ≠ [] ∧
    (storeC3.filter fun t => t.sitzungsart == "Supervision") ≠ [] ∧
    hole_klienten_termine (convert_kzt_to_lzt_callback storeC3 "CD" 10) "XY"
      = [] ∧
    ((convert_kzt_to_lzt_callback storeC3 "CD" 10).filter
      fun t => t.sitzungsart == "Supervision") = [] := by decide

/-! ## C6: behaviour on a missing target date -/

/-- C6 counterexample: on a date with no matching appointment the source
operations return the unchanged store as an ordinary result - there is no
error channel at all in their return type - while the spec-modelled
contract demands `AppointmentNotFoundError`.  Concretely, client "AB" has
no appointment on 2025-03-04; the spec-modelled operation reports the
error, but every code operation returns the store unchanged as a normal
value (prognose.py only logs "Kein Termin gefunden" and skips). -/
theorem C6_signals_error_counterexample :
    (∀ t ∈ hole_klienten_termine storeC6 "AB", t.datum ≠ mkDate 2025 3 4) ∧
    cancel_and_shift_spec storeC6 (mkDate 2025 3 4) "AB"
      = Except.error "AppointmentNotFoundError" ∧
    verschiebe_termin_callback storeC6 (mkDate 2025 3 4) "AB" = storeC6 ∧
    markiere_ptg storeC6 (mkDate 2025 3 4) "AB" = storeC6 ∧
    loesche_termine storeC6 (mkDate 2025 3 4) "AB" = storeC6 ∧
    verschieben_action storeC6 (mkDate 2025 3 4) "AB" 0 = storeC6 := by
  refine ⟨by decide, ?_, by decide, by decide, by decide, by decide⟩
  rfl

/-- C6 (amended): when the client has no appointment at the given date,
each prognose.py single-appointment mutation (cancel-and-shift, PTG
marking, therapy-end truncation, weekday realignment) leaves the store -
hence the client's chain - exactly unchanged; no error is raised, the
miss is only logged and the operation skipped. -/
theorem C6_missing_date_noop (s : Store) (d : Nat) (k : String)
    (hmiss : ∀ t ∈ hole_klienten_termine s k, t.datum ≠ d) :
    verschiebe_termin_callback s d k = s ∧
    markiere_ptg s d k = s ∧
    loesche_termine s d k = s ∧
    (∀ diff : Int, verschiebe_alle s d k diff = s) ∧
    (∀ w : Nat, verschieben_action s d k w = s) := by
  have hnone : get_index (hole_klienten_termine s k) d = none :=
    (get_index_none_iff _ _).mpr hmiss
  refine ⟨?_, ?_, ?_, fun diff => ?_, fun w => ?_⟩ <;>
    simp [verschiebe_termin_callback, markiere_ptg, loesche_termine,
      verschiebe_alle, verschieben_action, hnone]

/-- C6 witness: the amended theorem applied to client "AB" and the
missing date 2025-03-04. -/
theorem C6_missing_date_noop_witness :
    (∀ t ∈ hole_klienten_termine storeC6 "AB", t.datum ≠ mkDate 2025 3 4) ∧
    (verschiebe_termin_callback storeC6 (mkDate 2025 3 4) "AB" = storeC6 ∧
     markiere_ptg storeC6 (mkDate 2025 3 4) "AB" = storeC6 ∧
     loesche_termine storeC6 (mkDate 2025 3 4) "AB" = storeC6 ∧
     (∀ diff : Int, verschiebe_alle storeC6 (mkDate 2025 3 4) "AB" diff
        = storeC6) ∧
     (∀ w : Nat, verschieben_action storeC6 (mkDate 2025 3 4) "AB" w
        = storeC6)) :=
  ⟨by decide, C6_missing_date_noop storeC6 (mkDate 2025 3 4) "AB" (by decide)⟩

/-! ## C8: therapy end - truncation and idempotence -/

/-- C8: `end_therapy` truncates the chain to exactly the appointments
strictly before `d` and is idempotent.  `loesche_termine_ab_datum`
(prognose_improved.py) is literally the strict-date filter, and applying
the filter again changes nothing; `loesche_termine` (prognose.py) is
idempotent at store level, and on a date-sorted chain that contains an
appointment at `d` its positional truncation `df[:idx]` coincides with
the strict-date filter. -/
theorem C8_end_therapy (s : Store) (d : Nat) (k : String) :
    loesche_termine_ab_datum s k d
      = (hole_klienten_termine s k).filter (fun t => t.datum < d) ∧
    (loesche_termine_ab_datum s k d).filter (fun t => t.datum < d)
      = loesche_termine_ab_datum s k d ∧
    loesche_termine (loesche_termine s d k) d k = loesche_termine s d k ∧
    ((hole_klienten_termine s k).Pairwise (fun a b => a.datum ≤ b.datum) →
      (∃ t ∈ hole_klienten_termine s k, t.datum = d) →
      hole_klienten_termine (loesche_termine s d k) k
        = (hole_klienten_termine s k).filter (fun t => t.datum < d)) := by
  have htake_sub : ∀ idx, ∀ t ∈ (hole_klienten_termine s k).take idx,
      t.klient = some k := fun idx t ht =>
    mem_hole_klient s k t (List.mem_of_mem_take ht)
  have hole_after : ∀ idx, get_index (hole_klienten_termine s k) d = some idx →
      hole_klienten_termine (loesche_termine s d k) k
        = (hole_klienten_termine s k).take idx := by
    intro idx hidx
    have h1 : loesche_termine s d k = update_klient_termine_in_session s k
        ((hole_klienten_termine s k).take idx) := by
      simp only [loesche_termine, hidx]
    rw [h1, hole_update_self s k _ (htake_sub idx)]
  refine ⟨rfl, ?_, ?_, ?_⟩
  · rw [loesche_termine_ab_datum, List.filter_filter]
    exact List.filter_congr fun t ht => by cases h : decide (t.datum < d) <;>
      simp [h]
  · cases hidx : get_index (hole_klienten_termine s k) d with
    | none => simp only [loesche_termine, hidx]
    | some idx =>
        obtain ⟨hi, hd, hfirst⟩ :=
          (get_index_eq_some_iff (hole_klienten_termine s k) d idx).mp hidx
        have h1 : loesche_termine s d k = update_klient_termine_in_session s k
            ((hole_klienten_termine s k).take idx) := by
          simp only [loesche_termine, hidx]
        have h2 := hole_after idx hidx
        have hnone : get_index
            (hole_klienten_termine (loesche_termine s d k) k) d = none := by
          rw [h2]
          refine (get_index_none_iff _ _).mpr fun t ht => ?_
          obtain ⟨j, hj, rfl⟩ := List.mem_take_iff_getElem.mp ht
          have hj' : j < idx := by omega
          have := hfirst j hj'
          simpa using this
        rw [show loesche_termine (loesche_termine s d k) d k
            = match get_index
                (hole_klienten_termine (loesche_termine s d k) k) d with
              | none => loesche_termine s d k
              | some idx => update_klient_termine_in_session
                  (loesche_termine s d k) k
                  ((hole_klienten_termine (loesche_termine s d k) k).take idx)
            from rfl, hnone]
  · intro hsort hex
    obtain ⟨idx, hidx⟩ := Option.isSome_iff_exists.mp
      ((get_index_isSome_iff _ _).mpr hex)
    obtain ⟨hi, hd, hfirst⟩ :=
      (get_index_eq_some_iff (hole_klienten_termine s k) d idx).mp hidx
    rw [hole_after idx hidx]
    have hpair := List.pairwise_iff_getElem.mp hsort
    have hlow : ∀ j (hj : j < idx),
        ((hole_klienten_termine s k).get
          ⟨j, Nat.lt_trans hj hi⟩).datum < d := by
      intro j hj
      have hle : ((hole_klienten_termine s k).get
          ⟨j, Nat.lt_trans hj hi⟩).datum ≤
          ((hole_klienten_termine s k).get ⟨idx, hi⟩).datum :=
        hpair j idx (Nat.lt_trans hj hi) hi hj
      have hne := hfirst j hj
      omega
    have hhigh : ∀ j (hj : j < (hole_klienten_termine s k).length),
        idx ≤ j → ¬ ((hole_klienten_termine s k).get ⟨j, hj⟩).datum < d := by
      intro j hj hge
      rcases Nat.eq_or_lt_of_le hge with rfl | hlt
      · omega
      · have hle : ((hole_klienten_termine s k).get ⟨idx, hi⟩).datum ≤
            ((hole_klienten_termine s k).get ⟨j, hj⟩).datum :=
          hpair idx j hi hj hlt
        omega
    have hsplit : (hole_klienten_termine s k).filter (fun t => t.datum < d)
        = ((hole_klienten_termine s k).take idx).filter
            (fun t => t.datum < d)
          ++ ((hole_klienten_termine s k).drop idx).filter
            (fun t => t.datum < d) := by
      rw [← List.filter_append, List.take_append_drop]
    have htake : ((hole_klienten_termine s k).take idx).filter
        (fun t => t.datum < d) = (hole_klienten_termine s k).take idx := by
      refine List.filter_eq_self.mpr fun t ht => ?_
      obtain ⟨j, hj, rfl⟩ := List.mem_take_iff_getElem.mp ht
      have hj' : j < idx := by omega
      simpa using hlow j hj'
    have hdrop : ((hole_klienten_termine s k).drop idx).filter
        (fun t => t.datum < d) = [] := by
      refine List.filter_eq_nil_iff.mpr fun t ht => ?_
      obtain ⟨j, hj, rfl⟩ := List.mem_iff_getElem.mp ht
      have hj2 : idx + j < (hole_klienten_termine s k).length := by
        simp only [List.length_drop] at hj
        omega
      have hel : ((hole_klienten_termine s k).drop idx)[j]
          = (hole_klienten_termine s k).get ⟨idx + j, hj2⟩ :=
        List.getElem_drop _
      rw [hel]
      simpa using hhigh (idx + j) hj2 (by omega)
    rw [hsplit, htake, hdrop, List.append_nil]

/-- C8 witness: the theorem applied to the "EF" chain and 2025-05-19. -/
theorem C8_end_therapy_witness :
    loesche_termine_ab_datum chainEF "EF" (mkDate 2025 5 19)
      = (hole_klienten_termine chainEF "EF").filter
          (fun t => t.datum < mkDate 2025 5 19) ∧
    loesche_termine (loesche_termine chainEF (mkDate 2025 5 19) "EF")
        (mkDate 2025 5 19) "EF"
      = loesche_termine chainEF (mkDate 2025 5 19) "EF" ∧
    hole_klienten_termine
        (loesche_termine chainEF (mkDate 2025 5 19) "EF") "EF"
      = (hole_klienten_termine chainEF "EF").filter
          (fun t => t.datum < mkDate 2025 5 19) :=
  ⟨(C8_end_therapy chainEF (mkDate 2025 5 19) "EF").1,
   (C8_end_therapy chainEF (mkDate 2025 5 19) "EF").2.2.1,
   (C8_end_therapy chainEF (mkDate 2025 5 19) "EF").2.2.2 (by decide)
     (by decide)⟩

/-! ## C9: weekday realignment -/

/-- C9 counterexample: client "AB" has one appointment on Friday
2025-05-09 (weekday 4); realigning to Monday (0) uses the UI-computed
signed difference `0 - 4 = -4` - not `(0 - 4) mod 7 = 3` - so the
appointment moves BACKWARD to 2025-05-05 instead of forward to
2025-05-12, refuting "a value in 0..6, never negative". -/
theorem C9_negative_shift_counterexample :
    weekday (mkDate 2025 5 9) = 4 ∧
    diff_tage 0 (mkDate 2025 5 9) = -4 ∧
    hole_klienten_termine
        (verschieben_action storeC9 (mkDate 2025 5 9) "AB" 0) "AB"
      = [{ datum := mkDate 2025 5 5, klient := some "AB",
           sitzungsart := "KZT", nummer := some 1 }] ∧
    mkDate 2025 5 5 < mkDate 2025 5 9 ∧
    mkDate 2025 5 5 ≠ mkDate 2025 5 9 + (0 + 7 - weekday (mkDate 2025 5 9)) % 7 := by
  decide

/-- C9 (amended): prognose.py's realignment adds the same SIGNED
day-difference `w - weekday(d)` - a value in `-6..6` that can be
negative - to the appointment at `d` and to every appointment at a later
chain position, leaving earlier positions unchanged, and is the identity
when `w` equals `d`'s weekday; prognose_improved.py instead moves each
appointment dated `≥ d` forward by its own `(w - weekday(t)) mod 7`
days (its special case for a zero difference is dead code). -/
theorem C9_realign_weekday (s : Store) (d : Nat) (k : String) (w : Nat)
    (idx : Nat) (hw : w ≤ 6)
    (hidx : get_index (hole_klienten_termine s k) d = some idx)
    (hdates : ∀ t ∈ hole_klienten_termine s k, 6 ≤ t.datum) :
    (-6 : Int) ≤ diff_tage w d ∧ diff_tage w d ≤ 6 ∧
    (w = weekday d → diff_tage w d = 0) ∧
    (verschiebe_alle_chain (hole_klienten_termine s k) d
        (diff_tage w d)).length = (hole_klienten_termine s k).length ∧
    (∀ j (hj : j < (hole_klienten_termine s k).length),
      (j < idx →
        (verschiebe_alle_chain (hole_klienten_termine s k) d
            (diff_tage w d))[j]?
          = some ((hole_klienten_termine s k).get ⟨j, hj⟩)) ∧
      (idx ≤ j →
        ((verschiebe_alle_chain (hole_klienten_termine s k) d
            (diff_tage w d))[j]?).map (fun t => (t.datum : Int))
          = some
              (((hole_klienten_termine s k).get ⟨j, hj⟩).datum
                + diff_tage w d))) ∧
    verschiebe_termine_ab_datum s k d w
      = sortByDatum
          ((hole_klienten_termine s k).filter (fun t => t.datum < d)
            ++ ((hole_klienten_termine s k).filter
                  (fun t => d ≤ t.datum)).map
                (fun t =>
                  { t with datum :=
                      t.datum + (w + 7 - weekday t.datum) % 7 })) := by
  have hwk : weekday d < 7 := Nat.mod_lt _ (by omega)
  have hdiffl : (-6 : Int) ≤ diff_tage w d := by
    simp only [diff_tage]
    omega
  have hdiffu : diff_tage w d ≤ 6 := by
    simp only [diff_tage]
    omega
  have hchain : verschiebe_alle_chain (hole_klienten_termine s k) d
      (diff_tage w d) =
      (hole_klienten_termine s k).enum.map fun p =>
        if idx ≤ p.1 then
          { p.2 with datum := ((p.2.datum : Int) + diff_tage w d).toNat }
        else p.2 := by
    simp only [verschiebe_alle_chain, hidx]
  refine ⟨hdiffl, hdiffu, ?_, ?_, ?_, ?_⟩
  · intro hweq
    simp only [diff_tage, hweq]
    omega
  · rw [hchain]
    simp
  · intro j hj
    have hb : j < ((hole_klienten_termine s k).enum.map fun p =>
        if idx ≤ p.1 then
          { p.2 with datum := ((p.2.datum : Int) + diff_tage w d).toNat }
        else p.2).length := by
      simpa using hj
    have hel : (verschiebe_alle_chain (hole_klienten_termine s k) d
        (diff_tage w d))[j]? = some
          (if idx ≤ j then
            { (hole_klienten_termine s k).get ⟨j, hj⟩ with datum :=
                ((((hole_klienten_termine s k).get ⟨j, hj⟩).datum : Int)
                  + diff_tage w d).toNat }
           else (hole_klienten_termine s k).get ⟨j, hj⟩) := by
      rw [hchain, List.getElem?_eq_getElem hb]
      simp only [List.getElem_map, List.getElem_enum, List.get_eq_getElem]
    constructor
    · intro hlt
      rw [hel]
      have hnle : ¬ idx ≤ j := by omega
      rw [if_neg hnle]
    · intro hge
      rw [hel, if_pos hge]
      have h6 : 6 ≤ ((hole_klienten_termine s k).get ⟨j, hj⟩).datum :=
        hdates _ (List.get_mem _ _ _)
      have hnn : (0 : Int) ≤
          (((hole_klienten_termine s k).get ⟨j, hj⟩).datum : Int)
            + diff_tage w d := by
        have h6' : (6 : Int) ≤
            (((hole_klienten_termine s k).get ⟨j, hj⟩).datum : Int) := by
          exact_mod_cast h6
        omega
      simp [Int.toNat_of_nonneg hnn]
      exact hnn
  · obtain ⟨hi, hd, hfirst⟩ :=
      (get_index_eq_some_iff (hole_klienten_termine s k) d idx).mp hidx
    have hmem : (hole_klienten_termine s k).get ⟨idx, hi⟩ ∈
        (hole_klienten_termine s k).filter (fun t => d ≤ t.datum) := by
      refine List.mem_filter.mpr ⟨List.get_mem _ _ _, ?_⟩
      have hd' : ((hole_klienten_termine s k).get ⟨idx, hi⟩).datum = d := hd
      simp only [List.get_eq_getElem] at hd'
      simp [hd']
    have hne : ((hole_klienten_termine s k).filter
        (fun t => d ≤ t.datum)).isEmpty = false := by
      rcases h : ((hole_klienten_termine s k).filter
          (fun t => d ≤ t.datum)).isEmpty with _ | _
      · exact h
      · rw [List.isEmpty_iff] at h
        rw [h] at hmem
        simp at hmem
    have hmapeq : ((hole_klienten_termine s k).filter
          (fun t => d ≤ t.datum)).map
        (fun t =>
          { t with datum :=
              t.datum +
                (if (w + 7 - weekday t.datum) % 7 = 0 ∧ w ≠ weekday t.datum
                 then 7 else (w + 7 - weekday t.datum) % 7) })
      = ((hole_klienten_termine s k).filter
          (fun t => d ≤ t.datum)).map
        (fun t =>
          { t with datum := t.datum + (w + 7 - weekday t.datum) % 7 }) := by
      refine List.map_congr_left fun t ht => ?_
      have hwt : weekday t.datum < 7 := Nat.mod_lt _ (by omega)
      have hdead : ¬ ((w + 7 - weekday t.datum) % 7 = 0
          ∧ w ≠ weekday t.datum) := by
        rintro ⟨h0, hne'⟩
        apply hne'
        omega
      simp only [if_neg hdead]
    simp only [verschiebe_termine_ab_datum, hne, Bool.false_eq_true,
      if_false]
    rw [hmapeq]

/-- C9 witness: the amended theorem applied to client "AB", appointment
Friday 2025-05-09, target weekday Monday (0). -/
theorem C9_realign_weekday_witness :
    (0 : Nat) ≤ 6 ∧
    get_index (hole_klienten_termine storeC9 "AB") (mkDate 2025 5 9)
      = some 0 ∧
    (∀ t ∈ hole_klienten_termine storeC9 "AB", 6 ≤ t.datum) ∧
    ((-6 : Int) ≤ diff_tage 0 (mkDate 2025 5 9) ∧
     diff_tage 0 (mkDate 2025 5 9) ≤ 6 ∧
     (0 = weekday (mkDate 2025 5 9) → diff_tage 0 (mkDate 2025 5 9) = 0) ∧
     (verschiebe_alle_chain (hole_klienten_termine storeC9 "AB")
         (mkDate 2025 5 9) (diff_tage 0 (mkDate 2025 5 9))).length
       = (hole_klienten_termine storeC9 "AB").length ∧
     (∀ j (hj : j < (hole_klienten_termine storeC9 "AB").length),
       (j < 0 →
         (verschiebe_alle_chain (hole_klienten_termine storeC9 "AB")
             (mkDate 2025 5 9) (diff_tage 0 (mkDate 2025 5 9)))[j]?
           = some ((hole_klienten_termine storeC9 "AB").get ⟨j, hj⟩)) ∧
       (0 ≤ j →
         ((verschiebe_alle_chain (hole_klienten_termine storeC9 "AB")
             (mkDate 2025 5 9) (diff_tage 0 (mkDate 2025 5 9)))[j]?).map
               (fun t => (t.datum : Int))
           = some
               (((hole_klienten_termine storeC9 "AB").get ⟨j, hj⟩).datum
                 + diff_tage 0 (mkDate 2025 5 9)))) ∧
     verschiebe_termine_ab_datum storeC9 "AB" (mkDate 2025 5 9) 0
       = sortByDatum
           ((hole_klienten_termine storeC9 "AB").filter
               (fun t => t.datum < mkDate 2025 5 9)
             ++ ((hole_klienten_termine storeC9 "AB").filter
                   (fun t => mkDate 2025 5 9 ≤ t.datum)).map
                 (fun t =>
                   { t with datum :=
                       t.datum + (0 + 7 - weekday t.datum) % 7 }))) :=
  ⟨by decide, by decide, by decide,
    C9_realign_weekday storeC9 (mkDate 2025 5 9) "AB" 0 0 (by decide)
      (by decide) (by decide)⟩

/-! ## C10: duplicate dates resolve to the first matching position -/

theorem set_daten_getElem2 (c : List Termin) (ds : List Nat) (j : Nat)
    (hc : j < c.length) (hd : j < ds.length) (u : Termin) (dd : Nat)
    (hu : (c)[j]? = some u) (hdd : (ds)[j]? = some dd) :
    (set_daten c ds)[j]? = some { u with datum := dd } := by
  have h2 : u = c.get ⟨j, hc⟩ := by
    have h := List.getElem?_eq_getElem hc
    rw [hu] at h
    exact Option.some_injective _ h.symm |>.symm
  have h3 : dd = ds.get ⟨j, hd⟩ := by
    have h := List.getElem?_eq_getElem hd
    rw [hdd] at h
    exact Option.some_injective _ h.symm |>.symm
  rw [h2, h3]
  exact set_daten_getElem? c ds j hc hd

/-- C10: when position `i` is the FIRST appointment carrying date `d`
(later same-date appointments may exist), every date-addressed mutation
targets exactly position `i`: `get_index` returns `i`; therapy-end
truncates to the first `i` rows; cancellation removes exactly one
occurrence of `d` from the date column while keeping the chain length;
realignment leaves every position before `i` unchanged; PTG marking
keeps every position before `i` unchanged and puts the new PTG row at
position `i` - the later duplicates are never chosen as the target. -/
theorem C10_duplicate_dates (c : List Termin) (d : Nat) (i : Nat)
    (hi : i < c.length) (hd : (c.get ⟨i, hi⟩).datum = d)
    (hfirst : ∀ j (hj : j < i), (c.get ⟨j, Nat.lt_trans hj hi⟩).datum ≠ d) :
    get_index c d = some i ∧
    loesche_termine_chain c d = c.take i ∧
    ((verschiebe_termin_chain c d).map Termin.datum).count d
      = (c.map Termin.datum).count d - 1 ∧
    (verschiebe_termin_chain c d).length = c.length ∧
    (∀ diff : Int, ∀ j (hj : j < c.length), j < i →
      (verschiebe_alle_chain c d diff)[j]? = some (c.get ⟨j, hj⟩)) ∧
    (∀ k : String, ∀ j (hj : j < c.length), j < i →
      (markiere_ptg_chain c d k)[j]? = some (c.get ⟨j, hj⟩)) ∧
    (∀ k : String,
      ((markiere_ptg_chain c d k)[i]?).map (fun t => t.sitzungsart)
        = some "PTG") := by
  have hidx : get_index c d = some i :=
    (get_index_eq_some_iff c d i).mpr ⟨hi, hd, hfirst⟩
  have hdmem : d ∈ c.map Termin.datum :=
    List.mem_map.mpr ⟨c.get ⟨i, hi⟩, List.get_mem c _ _, hd⟩
  have hdle : d ≤ max_datum c := by
    rw [← hd]
    exact le_max_datum c _ (List.get_mem c _ _)
  have herase2 : (c.map Termin.datum).eraseIdx i
      = (c.map Termin.datum).erase d := by
    refine eraseIdx_eq_erase_of_first _ d i (by simpa using hi) ?_ ?_
    · simpa using hd
    · intro j hj
      simpa using hfirst j hj
  have hmk : ∀ k : String, markiere_ptg_chain c d k =
      set_daten
        (c.take i ++ [ptg_new_row k (count_value_in_quarter c d "PTG" + 1)]
          ++ c.drop i)
        ((c.map Termin.datum) ++ [max_datum c + 7]) := by
    intro k
    simp only [markiere_ptg_chain, ptg_new_row, hidx]
  have hinslen : ∀ k : String, (c.take i
      ++ [ptg_new_row k (count_value_in_quarter c d "PTG" + 1)]
      ++ c.drop i).length = c.length + 1 := by
    intro k
    simp only [List.length_append, List.length_take, List.length_singleton,
      List.length_drop]
    omega
  have hndlen : ((c.map Termin.datum) ++ [max_datum c + 7]).length
      = c.length + 1 := by
    simp
  have htkl : (c.take i).length = i := by
    rw [List.length_take]
    omega
  refine ⟨hidx, ?_, ?_, verschiebe_chain_length c d i hidx, ?_, ?_, ?_⟩
  · simp only [loesche_termine_chain, hidx]
  · rw [verschiebe_chain_eq c d i hidx,
      List.eraseIdx_append_of_lt_length (by simpa using hi),
      herase2,
      set_daten_map_datum _ _
        (by simp [List.length_erase_of_mem hdmem]; omega),
      List.count_append, List.count_erase_self]
    have hne : ¬ (max_datum c + 7 == d) = true := by
      simp only [beq_iff_eq]
      omega
    simp [List.count_singleton, hne]
  · intro diff j hj hji
    have hch : verschiebe_alle_chain c d diff =
        c.enum.map fun p =>
          if i ≤ p.1 then
            { p.2 with datum := ((p.2.datum : Int) + diff).toNat }
          else p.2 := by
      simp only [verschiebe_alle_chain, hidx]
    have hb : j < (c.enum.map fun p =>
        if i ≤ p.1 then
          { p.2 with datum := ((p.2.datum : Int) + diff).toNat }
        else p.2).length := by
      simpa using hj
    rw [hch, List.getElem?_eq_getElem hb]
    have hnle : ¬ i ≤ j := by omega
    simp only [List.getElem_map, List.getElem_enum, List.get_eq_getElem,
      if_neg hnle]
  · intro k j hj hji
    have hu : (c.take i
        ++ [ptg_new_row k (count_value_in_quarter c d "PTG" + 1)]
        ++ c.drop i)[j]? = some (c.get ⟨j, hj⟩) := by
      rw [List.getElem?_append, if_pos
          (by rw [List.length_append, htkl, List.length_singleton]; omega),
        List.getElem?_append, if_pos (by rw [htkl]; omega),
        List.getElem?_take, if_pos hji, List.getElem?_eq_getElem hj]
      rfl
    have hdd : ((c.map Termin.datum) ++ [max_datum c + 7])[j]?
        = some ((c.get ⟨j, hj⟩).datum) := by
      rw [List.getElem?_append, if_pos (by rw [List.length_map]; omega),
        List.getElem?_map, List.getElem?_eq_getElem hj]
      rfl
    rw [hmk k]
    exact set_daten_getElem2 _ _ j (by rw [hinslen k]; omega)
      (by rw [hndlen]; omega) _ _ hu hdd
  · intro k
    have hu : (c.take i
        ++ [ptg_new_row k (count_value_in_quarter c d "PTG" + 1)]
        ++ c.drop i)[i]? =
        some (ptg_new_row k (count_value_in_quarter c d "PTG" + 1)) := by
      rw [List.getElem?_append, if_pos
          (by rw [List.length_append, htkl, List.length_singleton]; omega),
        List.getElem?_append_right (by rw [htkl]), htkl]
      simp
    have hdd : ((c.map Termin.datum) ++ [max_datum c + 7])[i]?
        = some ((c.get ⟨i, hi⟩).datum) := by
      rw [List.getElem?_append, if_pos (by rw [List.length_map]; omega),
        List.getElem?_map, List.getElem?_eq_getElem hi]
      rfl
    rw [hmk k, set_daten_getElem2 _ _ i (by rw [hinslen k]; omega)
      (by rw [hndlen]; omega) _ _ hu hdd]
    rfl

/-- C10 witness: the theorem applied to a chain with two appointments on
2025-03-03, the first of which sits at position 1. -/
theorem C10_duplicate_dates_witness :
    1 < chainC10.length ∧
    get_index chainC10 (mkDate 2025 3 3) = some 1 ∧
    loesche_termine_chain chainC10 (mkDate 2025 3 3) = chainC10.take 1 ∧
    ((verschiebe_termin_chain chainC10 (mkDate 2025 3 3)).map
        Termin.datum).count (mkDate 2025 3 3)
      = (chainC10.map Termin.datum).count (mkDate 2025 3 3) - 1 ∧
    (verschiebe_termin_chain chainC10 (mkDate 2025 3 3)).length
      = chainC10.length ∧
    (∀ diff : Int, ∀ j (hj : j < chainC10.length), j < 1 →
      (verschiebe_alle_chain chainC10 (mkDate 2025 3 3) diff)[j]?
        = some (chainC10.get ⟨j, hj⟩)) ∧
    (∀ k : String, ∀ j (hj : j < chainC10.length), j < 1 →
      (markiere_ptg_chain chainC10 (mkDate 2025 3 3) k)[j]?
        = some (chainC10.get ⟨j, hj⟩)) ∧
    (∀ k : String,
      ((markiere_ptg_chain chainC10 (mkDate 2025 3 3) k)[1]?).map
          (fun t => t.sitzungsart)
        = some "PTG") := by
  have h := C10_duplicate_dates chainC10 (mkDate 2025 3 3) 1 (by decide)
    (by decide)
    (by
      intro j hj
      have hj0 : j = 0 := by omega
      subst hj0
      show (chainC10.get ⟨0, by decide⟩).datum ≠ mkDate 2025 3 3
      decide)
  exact ⟨by decide, h.1, h.2.1, h.2.2.1, h.2.2.2.1, h.2.2.2.2.1,
    h.2.2.2.2.2.1, h.2.2.2.2.2.2⟩

/-! ## C7: PTG quarter quota -/

theorem insertByDatum_perm (t : Termin) (l : List Termin) :
    (insertByDatum t l).Perm (t :: l) := by
  induction l with
  | nil => exact List.Perm.refl _
  | cons u us ih =>
      by_cases h : u.datum ≤ t.datum
      · simp only [insertByDatum, if_pos h]
        exact (ih.cons u).trans (List.Perm.swap t u us)
      · simp only [insertByDatum, if_neg h]
        exact List.Perm.refl _

theorem sortByDatum_perm (l : List Termin) : (sortByDatum l).Perm l := by
  induction l with
  | nil => exact List.Perm.refl _
  | cons t ts ih =>
      exact (insertByDatum_perm t (sortByDatum ts)).trans (ih.cons t)

/-- C7: `markiere_als_ptg` (prognose_improved.py), called as the UI does
with the quarter of the target date, fails and leaves the chain unchanged
exactly when the client already has `≥ 3` PTG appointments in that
calendar quarter; otherwise it succeeds and the chain gains a PTG
appointment at the target date numbered `count + 1`.  Concretely, client
"GH" with exactly 3 PTG appointments in Q1 2025: a 4th call on the
Q1 date 2025-03-24 fails with the chain unchanged, while a call on the
Q2 date 2025-04-07 succeeds. -/
theorem C7_ptg_quota (s : Store) (k : String) (d : Nat)
    (hex : ∃ t ∈ hole_klienten_termine s k, t.datum = d) :
    ((markiere_als_ptg s k d (quartalOf d)).2.1 = false ↔
      3 ≤ ((hole_klienten_termine s k).filter fun t =>
        t.sitzungsart == "PTG" && quartalOf t.datum == quartalOf d).length) ∧
    (3 ≤ ((hole_klienten_termine s k).filter fun t =>
        t.sitzungsart == "PTG" && quartalOf t.datum == quartalOf d).length →
      (markiere_als_ptg s k d (quartalOf d)).1
        = hole_klienten_termine s k) ∧
    (((hole_klienten_termine s k).filter fun t =>
        t.sitzungsart == "PTG" && quartalOf t.datum == quartalOf d).length
          < 3 →
      (markiere_als_ptg s k d (quartalOf d)).2.1 = true ∧
      ∃ t ∈ (markiere_als_ptg s k d (quartalOf d)).1,
        t.sitzungsart = "PTG" ∧ t.datum = d ∧
        t.nummer = some
          (((hole_klienten_termine s k).filter fun t =>
            t.sitzungsart == "PTG"
              && quartalOf t.datum == quartalOf d).length + 1)) ∧
    (markiere_als_ptg storeC7 "GH" (mkDate 2025 3 24)
        (quartalOf (mkDate 2025 3 24))).2.1 = false ∧
    (markiere_als_ptg storeC7 "GH" (mkDate 2025 3 24)
        (quartalOf (mkDate 2025 3 24))).1
      = hole_klienten_termine storeC7 "GH" ∧
    (markiere_als_ptg storeC7 "GH" (mkDate 2025 4 7)
        (quartalOf (mkDate 2025 4 7))).2.1 = true := by
  obtain ⟨t0, ht0, ht0d⟩ := hex
  have hne : (hole_klienten_termine s k).isEmpty = false := by
    cases hcase : (hole_klienten_termine s k).isEmpty
    · rfl
    · exfalso
      rw [List.isEmpty_iff] at hcase
      rw [hcase] at ht0
      simp at ht0
  have hfind : (hole_klienten_termine s k).findIdx
      (fun t => t.datum == d) < (hole_klienten_termine s k).length :=
    List.findIdx_lt_length_of_exists ⟨t0, ht0, by simp [ht0d]⟩
  by_cases h3 : 3 ≤ ((hole_klienten_termine s k).filter fun t =>
      t.sitzungsart == "PTG" && quartalOf t.datum == quartalOf d).length
  · have hfail : (markiere_als_ptg s k d (quartalOf d)).2.1 = false := by
      simp only [markiere_als_ptg, hne, Bool.false_eq_true, if_false,
        if_pos h3]
    have hkeep : (markiere_als_ptg s k d (quartalOf d)).1
        = hole_klienten_termine s k := by
      simp only [markiere_als_ptg, hne, Bool.false_eq_true, if_false,
        if_pos h3]
    refine ⟨?_, fun _ => hkeep, ?_, by decide, by decide, by decide⟩
    · rw [hfail]
      simp [h3]
    · intro hlt
      omega
  · have hsucc : (markiere_als_ptg s k d (quartalOf d)).2.1 = true := by
      simp only [markiere_als_ptg, hne, Bool.false_eq_true, if_false,
        if_neg h3, dif_pos hfind]
    have hgd : ((hole_klienten_termine s k).get
        ⟨(hole_klienten_termine s k).findIdx (fun t => t.datum == d),
          hfind⟩).datum = d := by
      have h := @List.findIdx_getElem _ (fun t => t.datum == d)
        (hole_klienten_termine s k) hfind
      simpa using h
    refine ⟨?_, ?_, ?_, by decide, by decide, by decide⟩
    · rw [hsucc]
      simp [h3]
    · intro hq
      omega
    · intro _
      refine ⟨hsucc, ?_⟩
      simp only [markiere_als_ptg, hne, Bool.false_eq_true, if_false,
        if_neg h3, dif_pos hfind]
      refine ⟨{ (hole_klienten_termine s k).get
          ⟨(hole_klienten_termine s k).findIdx (fun t => t.datum == d),
            hfind⟩ with
          sitzungsart := "PTG",
          nummer := some
            (((hole_klienten_termine s k).filter fun t =>
              t.sitzungsart == "PTG"
                && quartalOf t.datum == quartalOf d).length + 1) },
        ?_, rfl, hgd, rfl⟩
      refine ((sortByDatum_perm _).mem_iff).mpr ?_
      refine List.mem_append.mpr (Or.inl (List.mem_append.mpr (Or.inl ?_)))
      refine List.mem_filter.mpr ⟨?_, ?_⟩
      · exact List.mem_set _ _ hfind _
      · have hgd2 := hgd
        simp only [List.get_eq_getElem] at hgd2
        simp [hgd2]

/-- C7 witness: the theorem applied to client "GH" and the Q1 date
2025-03-24 (quota full), plus its Q2 success conjunct. -/
theorem C7_ptg_quota_witness :
    (∃ t ∈ hole_klienten_termine storeC7 "GH", t.datum = mkDate 2025 3 24) ∧
    ((markiere_als_ptg storeC7 "GH" (mkDate 2025 3 24)
        (quartalOf (mkDate 2025 3 24))).2.1 = false ↔
      3 ≤ ((hole_klienten_termine storeC7 "GH").filter fun t =>
        t.sitzungsart == "PTG" &&
          quartalOf t.datum == quartalOf (mkDate 2025 3 24)).length) ∧
    (markiere_als_ptg storeC7 "GH" (mkDate 2025 3 24)
        (quartalOf (mkDate 2025 3 24))).1
      = hole_klienten_termine storeC7 "GH" ∧
    (markiere_als_ptg storeC7 "GH" (mkDate 2025 4 7)
        (quartalOf (mkDate 2025 4 7))).2.1 = true :=
  have h := C7_ptg_quota storeC7 "GH" (mkDate 2025 3 24) (by decide)
  ⟨by decide, h.1, h.2.2.2.2.1, h.2.2.2.2.2⟩

/-! ## C5: absence propagation helpers -/

theorem verschiebe_chain_map_datum (c : List Termin) (d : Nat) (idx : Nat)
    (hidx : get_index c d = some idx) :
    (verschiebe_termin_chain c d).map Termin.datum
      = (c.map Termin.datum).erase d ++ [max_datum c + 7] := by
  obtain ⟨hi, hd, hfirst⟩ := (get_index_eq_some_iff c d idx).mp hidx
  have hdmem : d ∈ c.map Termin.datum :=
    List.mem_map.mpr ⟨c.get ⟨idx, hi⟩, List.get_mem c _ _, hd⟩
  have herase : ((c.map Termin.datum) ++ [max_datum c + 7]).eraseIdx idx
      = (c.map Termin.datum).eraseIdx idx ++ [max_datum c + 7] :=
    List.eraseIdx_append_of_lt_length (by simpa using hi) _
  have herase2 : (c.map Termin.datum).eraseIdx idx
      = (c.map Termin.datum).erase d := by
    refine eraseIdx_eq_erase_of_first _ d idx (by simpa using hi) ?_ ?_
    · simpa using hd
    · intro j hj
      simpa using hfirst j hj
  rw [verschiebe_chain_eq c d idx hidx,
    set_daten_map_datum _ _
      (by rw [herase, herase2]; simp [List.length_erase_of_mem hdmem]; omega),
    herase, herase2]

theorem verschiebe_chain_klient (c : List Termin) (d : Nat) (k : String)
    (hc : ∀ t ∈ c, t.klient = some k) :
    ∀ t ∈ verschiebe_termin_chain c d, t.klient = some k := by
  intro t ht
  rcases hidx : get_index c d with _ | idx
  · rw [verschiebe_termin_chain, hidx] at ht
    exact hc t ht
  · rw [verschiebe_termin_chain, hidx] at ht
    obtain ⟨u, hu, hkl, _, _⟩ := mem_set_daten _ _ t ht
    rw [hkl]
    exact hc u hu

theorem cb_frame (s : Store) (d : Nat) (tgt k : String) (hkk : k ≠ tgt) :
    hole_klienten_termine (verschiebe_termin_callback s d tgt) k
      = hole_klienten_termine s k := by
  rcases hidx : get_index (hole_klienten_termine s tgt) d with _ | idx
  · simp only [verschiebe_termin_callback, hidx]
  · simp only [verschiebe_termin_callback, hidx]
    exact hole_update_other s tgt k _ hkk
      (verschiebe_chain_klient _ d tgt (mem_hole_klient s tgt))

theorem cb_own (s : Store) (d : Nat) (k : String)
    (hmem : ∃ t ∈ hole_klienten_termine s k, t.datum = d) :
    hole_klienten_termine (verschiebe_termin_callback s d k) k
      = verschiebe_termin_chain (hole_klienten_termine s k) d := by
  obtain ⟨idx, hidx⟩ := Option.isSome_iff_exists.mp
    ((get_index_isSome_iff _ _).mpr hmem)
  simp only [verschiebe_termin_callback, hidx]
  exact hole_update_self s k _
    (verschiebe_chain_klient _ d k (mem_hole_klient s k))

theorem cb_miss (s : Store) (d : Nat) (k : String)
    (hmiss : ∀ t ∈ hole_klienten_termine s k, t.datum ≠ d) :
    verschiebe_termin_callback s d k = s := by
  have hnone : get_index (hole_klienten_termine s k) d = none :=
    (get_index_none_iff _ _).mpr hmiss
  simp only [verschiebe_termin_callback, hnone]

theorem foldl_max_append (l : List Nat) (m : Nat) (h : ∀ x ∈ l, x ≤ m) :
    (l ++ [m]).foldl max 0 = m := by
  apply Nat.le_antisymm
  · refine foldl_max_le _ 0 m (Nat.zero_le m) fun x hx => ?_
    rcases List.mem_append.mp hx with hx | hx
    · exact h x hx
    · simp only [List.mem_singleton] at hx
      omega
  · exact (le_foldl_max (l ++ [m]) 0).2 m (List.mem_append.mpr
      (Or.inr (List.mem_singleton.mpr rfl)))

theorem foldl_max_perm (l l' : List Nat) (h : l.Perm l') :
    l.foldl max 0 = l'.foldl max 0 := h.foldl_eq 0

theorem cons_le_sub (A B : Multiset Nat) (d : Nat) (h : (d ::ₘ B) ≤ A) :
    B ≤ A - ({d} : Multiset Nat) := by
  rw [Multiset.le_iff_count] at h ⊢
  intro a
  have ha := h a
  rw [Multiset.count_cons] at ha
  rw [Multiset.count_sub, Multiset.count_singleton]
  by_cases hda : a = d <;> simp [hda] at ha ⊢ <;> omega

theorem msub_shift (A B : Multiset Nat) (d m : Nat)
    (hm : Multiset.count m B = 0) :
    (A - {d} + {m}) - B = A - {d} - B + {m} := by
  rw [Multiset.ext]
  intro a
  have h1 : Multiset.count a ((A - {d} + {m}) - B)
      = (Multiset.count a A - (if a = d then 1 else 0)
          + (if a = m then 1 else 0)) - Multiset.count a B := by
    rw [Multiset.count_sub, Multiset.count_add, Multiset.count_sub,
      Multiset.count_singleton, Multiset.count_singleton]
  have h2 : Multiset.count a (A - {d} - B + {m})
      = (Multiset.count a A - (if a = d then 1 else 0)
          - Multiset.count a B) + (if a = m then 1 else 0) := by
    rw [Multiset.count_add, Multiset.count_sub, Multiset.count_sub,
      Multiset.count_singleton, Multiset.count_singleton]
  rw [h1, h2]
  by_cases ham : a = m
  · have hB : Multiset.count a B = 0 := by
      rw [ham]
      exact hm
    simp only [if_pos ham, hB]
    omega
  · simp only [if_neg ham]
    omega

theorem tails_range_succ (m n : Nat) :
    ((List.range (n + 1)).map (fun j => m + 7 * (j + 1)) : Multiset Nat)
      = (m + 7) ::ₘ
        ((List.range n).map (fun j => (m + 7) + 7 * (j + 1)) : Multiset Nat) := by
  rw [List.range_succ_eq_map, List.map_cons, List.map_map]
  have : ((fun j => m + 7 * (j + 1)) ∘ Nat.succ)
      = fun j => (m + 7) + 7 * (j + 1) := by
    funext j
    simp only [Function.comp, Nat.succ_eq_add_one]
    ring
  rw [this]
  rfl

theorem sub_cons_eq (A B : Multiset Nat) (d : Nat) :
    A - (d ::ₘ B) = A - {d} - B := by
  rw [Multiset.ext]
  intro a
  rw [Multiset.count_sub, Multiset.count_sub, Multiset.count_sub,
    Multiset.count_cons, Multiset.count_singleton]
  omega

theorem urlaub_fold_invariant (k : String) :
    ∀ (L : List Termin) (s : Store),
      (((L.filter (fun t => t.klient == some k)).map Termin.datum : List Nat)
          : Multiset Nat)
        ≤ (((hole_klienten_termine s k).map Termin.datum : List Nat)
            : Multiset Nat) →
      (hole_klienten_termine (L.foldl verschiebe_schritt s) k).length
          = (hole_klienten_termine s k).length ∧
      (((hole_klienten_termine (L.foldl verschiebe_schritt s) k).map
          Termin.datum : List Nat) : Multiset Nat)
        = (((hole_klienten_termine s k).map Termin.datum : List Nat)
              : Multiset Nat)
            - (((L.filter (fun t => t.klient == some k)).map Termin.datum
                : List Nat) : Multiset Nat)
            + (((List.range
                  (L.filter (fun t => t.klient == some k)).length).map
                (fun j => max_datum (hole_klienten_termine s k) + 7 * (j + 1))
                : List Nat) : Multiset Nat) ∧
      max_datum (hole_klienten_termine (L.foldl verschiebe_schritt s) k)
        = max_datum (hole_klienten_termine s k)
          + 7 * (L.filter (fun t => t.klient == some k)).length := by
  intro L
  induction L with
  | nil =>
      intro s _
      refine ⟨rfl, ?_, by simp⟩
      simp
  | cons r L' ih =>
      intro s hle
      by_cases hkr : r.klient = some k
      · have hpr : (r.klient == some k) = true := by simp [hkr]
        have hfil : (r :: L').filter (fun t => t.klient == some k)
            = r :: L'.filter (fun t => t.klient == some k) := by
          rw [List.filter_cons, if_pos hpr]
        have hlecons : (r.datum ::ₘ
            (((L'.filter (fun t => t.klient == some k)).map Termin.datum
              : List Nat) : Multiset Nat))
            ≤ (((hole_klienten_termine s k).map Termin.datum : List Nat)
                : Multiset Nat) := by
          have h0 := hle
          rw [hfil] at h0
          simpa [Multiset.cons_coe] using h0
        have hdmem : r.datum ∈ (hole_klienten_termine s k).map Termin.datum := by
          have : r.datum ∈ (((hole_klienten_termine s k).map Termin.datum
              : List Nat) : Multiset Nat) :=
            Multiset.mem_of_le hlecons (Multiset.mem_cons_self _ _)
          exact Multiset.mem_coe.mp this
        have hex : ∃ t ∈ hole_klienten_termine s k, t.datum = r.datum := by
          obtain ⟨t, ht, hteq⟩ := List.mem_map.mp hdmem
          exact ⟨t, ht, hteq⟩
        have hstep : verschiebe_schritt s r
            = verschiebe_termin_callback s r.datum k := by
          simp [verschiebe_schritt, hkr]
        have hholes : hole_klienten_termine (verschiebe_schritt s r) k
            = verschiebe_termin_chain (hole_klienten_termine s k) r.datum := by
          rw [hstep]
          exact cb_own s r.datum k hex
        obtain ⟨idx, hidx⟩ := Option.isSome_iff_exists.mp
          ((get_index_isSome_iff _ _).mpr hex)
        have hdates1 : (verschiebe_termin_chain (hole_klienten_termine s k)
              r.datum).map Termin.datum
            = ((hole_klienten_termine s k).map Termin.datum).erase r.datum
              ++ [max_datum (hole_klienten_termine s k) + 7] :=
          verschiebe_chain_map_datum _ _ idx hidx
        have hbound : ∀ x ∈ (hole_klienten_termine s k).map Termin.datum,
            x ≤ max_datum (hole_klienten_termine s k) :=
          (le_foldl_max _ 0).2
        have hmax1 : max_datum (verschiebe_termin_chain
              (hole_klienten_termine s k) r.datum)
            = max_datum (hole_klienten_termine s k) + 7 := by
          rw [max_datum, hdates1]
          refine foldl_max_append _ _ fun x hx => ?_
          have hx' := (List.erase_sublist r.datum
            ((hole_klienten_termine s k).map Termin.datum)).mem hx
          have := hbound x hx'
          omega
        have hlen1 : (verschiebe_termin_chain (hole_klienten_termine s k)
              r.datum).length = (hole_klienten_termine s k).length :=
          verschiebe_chain_length _ _ idx hidx
        have hms1 : (((verschiebe_termin_chain (hole_klienten_termine s k)
              r.datum).map Termin.datum : List Nat) : Multiset Nat)
            = ((((hole_klienten_termine s k).map Termin.datum : List Nat)
                : Multiset Nat) - {r.datum})
              + {max_datum (hole_klienten_termine s k) + 7} := by
          rw [hdates1, ← Multiset.coe_add, Multiset.sub_singleton,
            Multiset.coe_erase]
          rfl
        have hle1 : (((L'.filter (fun t => t.klient == some k)).map
              Termin.datum : List Nat) : Multiset Nat)
            ≤ (((verschiebe_termin_chain (hole_klienten_termine s k)
                r.datum).map Termin.datum : List Nat) : Multiset Nat) := by
          rw [hms1]
          exact le_trans (cons_le_sub _ _ _ hlecons)
            (Multiset.le_add_right _ _)
        have hfold := ih (verschiebe_schritt s r) (by rw [hholes]; exact hle1)
        rw [hholes] at hfold
        obtain ⟨hflen, hfdates, hfmax⟩ := hfold
        have hcount0 : Multiset.count
            (max_datum (hole_klienten_termine s k) + 7)
            (((L'.filter (fun t => t.klient == some k)).map Termin.datum
              : List Nat) : Multiset Nat) = 0 := by
          rw [Multiset.count_eq_zero]
          intro hmem
          have hmem2 : max_datum (hole_klienten_termine s k) + 7
              ∈ (((hole_klienten_termine s k).map Termin.datum : List Nat)
                  : Multiset Nat) :=
            Multiset.mem_of_le (le_trans (cons_le_sub _ _ _ hlecons)
              tsub_le_self) hmem
          have := hbound _ (Multiset.mem_coe.mp hmem2)
          omega
        have hfoldl : (r :: L').foldl verschiebe_schritt s
            = L'.foldl verschiebe_schritt (verschiebe_schritt s r) := rfl
        refine ⟨?_, ?_, ?_⟩
        · rw [hfoldl, hflen, hlen1]
        · rw [hfoldl, hfdates, hms1, hmax1, hfil]
          rw [msub_shift _ _ _ _ hcount0]
          have htails : (((List.range
                ((r :: L'.filter (fun t => t.klient == some k)).length)).map
              (fun j => max_datum (hole_klienten_termine s k) + 7 * (j + 1))
              : List Nat) : Multiset Nat)
            = (max_datum (hole_klienten_termine s k) + 7) ::ₘ
              (((List.range
                  ((L'.filter (fun t => t.klient == some k)).length)).map
                (fun j => (max_datum (hole_klienten_termine s k) + 7)
                  + 7 * (j + 1)) : List Nat) : Multiset Nat) := by
            rw [List.length_cons]
            exact tails_range_succ _ _
          rw [htails]
          have hmsL : (((r :: L'.filter (fun t => t.klient == some k)).map
              Termin.datum : List Nat) : Multiset Nat)
            = r.datum ::ₘ (((L'.filter (fun t => t.klient == some k)).map
                Termin.datum : List Nat) : Multiset Nat) := by
            rw [List.map_cons, Multiset.cons_coe]
          rw [hmsL, sub_cons_eq]
          rw [← Multiset.singleton_add]
          rw [add_assoc]
        · rw [hfoldl, hfmax, hmax1, hfil, List.length_cons]
          ring
      · have hpr : (r.klient == some k) = false := by
          rcases hk2 : r.klient with _ | tgt
          · rfl
          · simp only [beq_eq_false_iff_ne, Ne]
            intro hcontra
            rw [hk2] at hkr
            exact hkr hcontra
        have hfil : (r :: L').filter (fun t => t.klient == some k)
            = L'.filter (fun t => t.klient == some k) := by
          rw [List.filter_cons, hpr]
          simp
        have hs' : hole_klienten_termine (verschiebe_schritt s r) k
            = hole_klienten_termine s k := by
          rcases hrk : r.klient with _ | tgt
          · simp [verschiebe_schritt, hrk]
          · simp only [verschiebe_schritt, hrk]
            refine cb_frame s r.datum tgt k ?_
            intro hkk
            rw [hkk] at hkr
            rw [hrk] at hkr
            exact hkr rfl
        have hfold := ih (verschiebe_schritt s r)
          (by rw [hs']; rw [hfil] at hle; exact hle)
        rw [hs'] at hfold
        obtain ⟨hflen, hfdates, hfmax⟩ := hfold
        have hfoldl : (r :: L').foldl verschiebe_schritt s
            = L'.foldl verschiebe_schritt (verschiebe_schritt s r) := rfl
        refine ⟨?_, ?_, ?_⟩
        · rw [hfoldl, hflen]
        · rw [hfoldl, hfdates, hfil]
        · rw [hfoldl, hfmax, hfil]

/-- C5: the absence operation `loesche_urlaub` folds `cancel_and_shift`
(`verschiebe_schritt`) once over each non-Supervision appointment of the
targeted client(s) whose date lies within the inclusive window, in store
(hence chronological) order, each step acting on the live store; for every
client with N appointments in that snapshot, the chain length is preserved,
the snapshot dates are replaced by N fresh weekly tail dates, and the
chain's tail (maximum date) ends exactly 7·N days — N weeks — later than
before. -/
theorem C5_absence_propagation (s : Store) (start ende : Nat)
    (klientArg k : String) :
    loesche_urlaub s start ende klientArg
        = (urlaubsTermine s start ende klientArg).foldl verschiebe_schritt s
    ∧ List.Sublist (urlaubsTermine s start ende klientArg) s
    ∧ (hole_klienten_termine (loesche_urlaub s start ende klientArg) k).length
        = (hole_klienten_termine s k).length
    ∧ (((hole_klienten_termine (loesche_urlaub s start ende klientArg) k).map
          Termin.datum : List Nat) : Multiset Nat)
        = ((((hole_klienten_termine s k).map Termin.datum : List Nat)
              : Multiset Nat)
            - ((((urlaubsTermine s start ende klientArg).filter
                  (fun t => t.klient == some k)).map Termin.datum
                : List Nat) : Multiset Nat))
          + (((List.range ((urlaubsTermine s start ende klientArg).filter
                  (fun t => t.klient == some k)).length).map
              (fun j => max_datum (hole_klienten_termine s k) + 7 * (j + 1))
              : List Nat) : Multiset Nat)
    ∧ max_datum (hole_klienten_termine (loesche_urlaub s start ende klientArg) k)
        = max_datum (hole_klienten_termine s k)
          + 7 * ((urlaubsTermine s start ende klientArg).filter
              (fun t => t.klient == some k)).length := by
  have hsubA : List.Sublist
      (s.filter fun t => !(t.sitzungsart == "Supervision")) s :=
    List.filter_sublist s
  have hsubT : List.Sublist
      (if klientArg = "Alle"
        then s.filter fun t => !(t.sitzungsart == "Supervision")
        else (s.filter fun t => !(t.sitzungsart == "Supervision")).filter
          fun t => t.klient == some klientArg) s := by
    by_cases hA : klientArg = "Alle"
    · rw [if_pos hA]; exact hsubA
    · rw [if_neg hA]; exact (List.filter_sublist _).trans hsubA
  have hsubW : List.Sublist (urlaubsTermine s start ende klientArg) s := by
    simp only [urlaubsTermine]
    exact (List.filter_sublist _).trans hsubT
  have hsubk : List.Sublist
      ((urlaubsTermine s start ende klientArg).filter
        fun t => t.klient == some k)
      (hole_klienten_termine s k) :=
    hsubW.filter _
  have hle : ((((urlaubsTermine s start ende klientArg).filter
        (fun t => t.klient == some k)).map Termin.datum : List Nat)
        : Multiset Nat)
      ≤ (((hole_klienten_termine s k).map Termin.datum : List Nat)
          : Multiset Nat) :=
    Multiset.coe_le.mpr ((hsubk.map Termin.datum).subperm)
  obtain ⟨h1, h2, h3⟩ :=
    urlaub_fold_invariant k (urlaubsTermine s start ende klientArg) s hle
  have heq : loesche_urlaub s start ende klientArg
      = (urlaubsTermine s start ende klientArg).foldl verschiebe_schritt s :=
    rfl
  refine ⟨heq, hsubW, ?_, ?_, ?_⟩
  · rw [heq]; exact h1
  · rw [heq]; exact h2
  · rw [heq]; exact h3
